import Mathlib

/-!
Verification of the AI Agent Studio cloud backend (Python sources under
cloud-backend/) against its natural-language specification.

The Python services are shallowly embedded: dictionaries become association
lists, datetimes are dropped where no claim mentions them, wall-clock
timestamps in the rate limiter become naturals, and the asyncio scheduler
loop of TaskManager.process_queue is decomposed into atomic steps at its
await points.  Every definition mirrors the corresponding Python function;
omissions (unused fields) are noted in the doc comments.
-/

namespace AgentStudio

/-! ## Association-list model of Python dict -/

/-- Python d.get(k, default): first binding of k, or the default. -/
def dget {κ α : Type} [DecidableEq κ] (d : List (κ × α)) (k : κ) (dflt : α) : α :=
  match d with
  | [] => dflt
  | (k', v) :: rest => if k' = k then v else dget rest k dflt

/-- Python d.get(k) / d[k] lookup returning an option. -/
def dfind {κ α : Type} [DecidableEq κ] (d : List (κ × α)) (k : κ) : Option α :=
  match d with
  | [] => none
  | (k', v) :: rest => if k' = k then some v else dfind rest k

/-- Python d[k] = v: replace the binding of k, or append a new one. -/
def dset {κ α : Type} [DecidableEq κ] (d : List (κ × α)) (k : κ) (v : α) :
    List (κ × α) :=
  match d with
  | [] => [(k, v)]
  | (k', v') :: rest => if k' = k then (k, v) :: rest else (k', v') :: dset rest k v

/-- Python `k in d`. -/
def dmem {κ α : Type} [DecidableEq κ] (d : List (κ × α)) (k : κ) : Bool :=
  match d with
  | [] => false
  | (k', _) :: rest => k' = k || dmem rest k

/-- Python `del d[k]` (removes the binding of k if present). -/
def ddel {κ α : Type} [DecidableEq κ] (d : List (κ × α)) (k : κ) : List (κ × α) :=
  match d with
  | [] => []
  | (k', v') :: rest => if k' = k then rest else (k', v') :: ddel rest k

@[simp] theorem dfind_nil {κ α : Type} [DecidableEq κ] (k : κ) :
    dfind ([] : List (κ × α)) k = none := rfl

theorem dfind_dset_self {κ α : Type} [DecidableEq κ] (d : List (κ × α)) (k : κ) (v : α) :
    dfind (dset d k v) k = some v := by
  induction d with
  | nil => simp [dset, dfind]
  | cons p rest ih =>
    obtain ⟨k', v'⟩ := p
    by_cases h : k' = k
    · simp [dset, h, dfind]
    · simp [dset, h, dfind, ih]

theorem dfind_dset_ne {κ α : Type} [DecidableEq κ] (d : List (κ × α)) (k k' : κ) (v : α)
    (h : k' ≠ k) : dfind (dset d k v) k' = dfind d k' := by
  have hk : ¬ k = k' := fun hh => h hh.symm
  induction d with
  | nil =>
    simp only [dset, dfind]
    rw [if_neg hk]
  | cons p rest ih =>
    obtain ⟨k0, v0⟩ := p
    by_cases h0 : k0 = k
    · subst h0
      simp only [dset, if_pos rfl, dfind]
      rw [if_neg hk, if_neg hk]
    · by_cases h1 : k0 = k'
      · subst h1
        simp only [dset]
        rw [if_neg h]
        simp [dfind]
      · simp [dset, dfind, h0, h1, ih]

theorem dget_eq_dfind {κ α : Type} [DecidableEq κ] (d : List (κ × α)) (k : κ) (dflt : α) :
    dget d k dflt = (dfind d k).getD dflt := by
  induction d with
  | nil => simp [dget, dfind]
  | cons p rest ih =>
    obtain ⟨k', v'⟩ := p
    by_cases h : k' = k
    · simp [dget, dfind, h]
    · simp [dget, dfind, h, ih]

theorem dget_dset_self {κ α : Type} [DecidableEq κ] (d : List (κ × α)) (k : κ)
    (v dflt : α) : dget (dset d k v) k dflt = v := by
  rw [dget_eq_dfind, dfind_dset_self]
  rfl

theorem dget_dset_ne {κ α : Type} [DecidableEq κ] (d : List (κ × α)) (k k' : κ)
    (v : α) (dflt : α) (h : k' ≠ k) :
    dget (dset d k v) k' dflt = dget d k' dflt := by
  rw [dget_eq_dfind, dget_eq_dfind, dfind_dset_ne _ _ _ _ h]

theorem dmem_iff_dfind {κ α : Type} [DecidableEq κ] (d : List (κ × α)) (k : κ) :
    dmem d k = true ↔ ∃ v, dfind d k = some v := by
  induction d with
  | nil => simp [dmem, dfind]
  | cons p rest ih =>
    obtain ⟨k', v'⟩ := p
    by_cases h : k' = k
    · simp [dmem, dfind, h]
    · simp [dmem, dfind, h, ih]

/-! ## UserManager quota ledger

From cloud-backend/services/user_manager.py.  A user is reduced to the two
quota dictionaries; the identity, credential and session fields play no role
in any claim.  Quota amounts are Python ints, modeled by Int. -/

/-- The quota-relevant fields of user_manager.User. -/
structure QuotaUser where
  quota_limits : List (String × Int)
  quota_used : List (String × Int)
  deriving DecidableEq

/-- UserManager.users: user_id to user. -/
def UMState := List (String × QuotaUser)

instance : DecidableEq UMState := by
  unfold UMState
  infer_instance

/-- UserManager.check_quota: unknown users are denied; a missing limit key
defaults to 0; limit -1 means unlimited; otherwise used + amount must stay
within the limit. -/
def check_quota (users : UMState) (user_id : String) (quota_type : String)
    (amount : Int) : Bool :=
  match dfind users user_id with
  | none => false
  | some user =>
    let limit := dget user.quota_limits quota_type 0
    let used := dget user.quota_used quota_type 0
    if limit = -1 then true
    else decide (used + amount ≤ limit)

/-- UserManager.consume_quota: re-runs check_quota; on failure returns false
with no mutation, on success increments the used counter by amount. -/
def consume_quota (users : UMState) (user_id : String) (quota_type : String)
    (amount : Int) : Bool × UMState :=
  if check_quota users user_id quota_type amount = false then (false, users)
  else
    match dfind users user_id with
    | none => (false, users)
    | some user =>
      (true,
        dset users user_id
          { user with
            quota_used := dset user.quota_used quota_type
              (dget user.quota_used quota_type 0 + amount) })

/-- The used counter a state records for a user and resource (0 when absent,
as in Python's .get(..., 0)). -/
def usedOf (users : UMState) (user_id quota_type : String) : Int :=
  match dfind users user_id with
  | none => 0
  | some user => dget user.quota_used quota_type 0

/-- The limit a state records for a user and resource (0 when absent). -/
def limitOf (users : UMState) (user_id quota_type : String) : Int :=
  match dfind users user_id with
  | none => 0
  | some user => dget user.quota_limits quota_type 0

/-- Folding a sequence of consume_quota calls (user, resource, amount). -/
def consumeMany (calls : List (String × String × Int)) (users : UMState) : UMState :=
  match calls with
  | [] => users
  | (uid, qt, amt) :: rest => consumeMany rest (consume_quota users uid qt amt).2

theorem consume_state_of_check_false (users : UMState) (uid qt : String) (amt : Int)
    (hc : check_quota users uid qt amt = false) :
    (consume_quota users uid qt amt).2 = users := by
  unfold consume_quota
  rw [if_pos hc]

theorem consume_state_of_found (users : UMState) (uid qt : String) (amt : Int)
    (user : QuotaUser)
    (hc : ¬ check_quota users uid qt amt = false)
    (hf : dfind users uid = some user) :
    (consume_quota users uid qt amt).2 =
      dset users uid
        { user with
          quota_used := dset user.quota_used qt
            (dget user.quota_used qt 0 + amt) } := by
  unfold consume_quota
  rw [if_neg hc, hf]

theorem consume_fst_of_found (users : UMState) (uid qt : String) (amt : Int)
    (user : QuotaUser)
    (hc : ¬ check_quota users uid qt amt = false)
    (hf : dfind users uid = some user) :
    (consume_quota users uid qt amt).1 = true := by
  unfold consume_quota
  rw [if_neg hc, hf]

theorem consume_limitOf (users : UMState) (uid qt u q : String) (amt : Int) :
    limitOf (consume_quota users uid qt amt).2 u q = limitOf users u q := by
  by_cases hc : check_quota users uid qt amt = false
  · rw [consume_state_of_check_false users uid qt amt hc]
  · cases hf : dfind users uid with
    | none =>
      unfold consume_quota
      rw [if_neg hc, hf]
    | some user =>
      rw [consume_state_of_found users uid qt amt user hc hf]
      unfold limitOf
      by_cases hu : u = uid
      · subst hu
        rw [dfind_dset_self, hf]
      · rw [dfind_dset_ne _ _ _ _ hu]

theorem consume_used_le (users : UMState) (uid qt u q : String) (amt : Int)
    (hlim : limitOf users u q ≠ -1)
    (hle : usedOf users u q ≤ limitOf users u q) :
    usedOf (consume_quota users uid qt amt).2 u q ≤
      limitOf (consume_quota users uid qt amt).2 u q := by
  rw [consume_limitOf]
  by_cases hc : check_quota users uid qt amt = false
  · rw [consume_state_of_check_false users uid qt amt hc]
    exact hle
  · cases hf : dfind users uid with
    | none =>
      unfold consume_quota
      rw [if_neg hc, hf]
      exact hle
    | some user =>
      rw [consume_state_of_found users uid qt amt user hc hf]
      unfold usedOf
      by_cases hu : u = uid
      · subst hu
        rw [dfind_dset_self]
        simp only
        by_cases hq : q = qt
        · subst hq
          rw [dget_dset_self]
          -- the successful check bounds used + amt by the limit
          unfold check_quota at hc
          rw [hf] at hc
          simp only at hc
          unfold limitOf at hlim ⊢
          rw [hf] at hlim ⊢
          by_cases hinf : dget user.quota_limits q 0 = -1
          · exact absurd hinf hlim
          · rw [if_neg hinf] at hc
            simp only [decide_eq_false_iff_not, not_not] at hc
            exact hc
        · rw [dget_dset_ne _ _ _ _ _ hq]
          unfold usedOf at hle
          rw [hf] at hle
          exact hle
      · rw [dfind_dset_ne _ _ _ _ hu]
        unfold usedOf at hle
        exact hle

theorem consumeMany_used_le (calls : List (String × String × Int)) (users : UMState)
    (u q : String) (hlim : limitOf users u q ≠ -1)
    (hle : usedOf users u q ≤ limitOf users u q) :
    usedOf (consumeMany calls users) u q ≤ limitOf (consumeMany calls users) u q := by
  induction calls generalizing users with
  | nil => exact hle
  | cons c rest ih =>
    obtain ⟨uid, qt, amt⟩ := c
    unfold consumeMany
    refine ih (consume_quota users uid qt amt).2 ?_ ?_
    · rw [consume_limitOf]; exact hlim
    · exact consume_used_le users uid qt u q amt hlim hle

/-- C2, claim statement: over any sequence of consume calls, used never
exceeds the limit for a resource whose limit is not -1, provided the
invariant held initially; and a single consume either increments the used
counter by the amount (result true) or returns the state unchanged
(result false). -/
theorem quota_ledger_sound
    (calls : List (String × String × Int)) (users : UMState) (u q : String)
    (hlim : limitOf users u q ≠ -1)
    (hle : usedOf users u q ≤ limitOf users u q) :
    (usedOf (consumeMany calls users) u q ≤ limitOf (consumeMany calls users) u q) ∧
    (∀ (s : UMState) (uid qt : String) (amt : Int),
      ((consume_quota s uid qt amt).1 = true →
        usedOf (consume_quota s uid qt amt).2 uid qt = usedOf s uid qt + amt ∧
        (∀ u' q', limitOf (consume_quota s uid qt amt).2 u' q' = limitOf s u' q') ∧
        (∀ u' q', ¬(u' = uid ∧ q' = qt) →
          usedOf (consume_quota s uid qt amt).2 u' q' = usedOf s u' q')) ∧
      ((consume_quota s uid qt amt).1 = false →
        (consume_quota s uid qt amt).2 = s)) := by
  refine ⟨consumeMany_used_le calls users u q hlim hle, ?_⟩
  intro s uid qt amt
  constructor
  · intro htrue
    by_cases hc : check_quota s uid qt amt = false
    · unfold consume_quota at htrue
      rw [if_pos hc] at htrue
      exact absurd htrue (by simp)
    · cases hf : dfind s uid with
      | none =>
        unfold consume_quota at htrue
        rw [if_neg hc, hf] at htrue
        exact absurd htrue (by simp)
      | some user =>
        rw [consume_state_of_found s uid qt amt user hc hf]
        refine ⟨?_, ?_, ?_⟩
        · unfold usedOf
          rw [dfind_dset_self, hf]
          exact dget_dset_self user.quota_used qt _ 0
        · intro u' q'
          unfold limitOf
          by_cases hu : u' = uid
          · subst hu; rw [dfind_dset_self, hf]
          · rw [dfind_dset_ne _ _ _ _ hu]
        · intro u' q' hne
          unfold usedOf
          by_cases hu : u' = uid
          · subst hu
            rw [dfind_dset_self, hf]
            simp only
            have hq : q' ≠ qt := by
              intro hq; exact hne ⟨rfl, hq⟩
            rw [dget_dset_ne _ _ _ _ _ hq]
          · rw [dfind_dset_ne _ _ _ _ hu]
  · intro hfalse
    by_cases hc : check_quota s uid qt amt = false
    · exact consume_state_of_check_false s uid qt amt hc
    · cases hf : dfind s uid with
      | none =>
        unfold consume_quota
        rw [if_neg hc, hf]
      | some user =>
        have := consume_fst_of_found s uid qt amt user hc hf
        rw [this] at hfalse
        exact absurd hfalse (by simp)

/-- C2 witness: a concrete user with limit 10, used 9 consuming 1 twice:
the first consume succeeds, the invariant keeps used within the limit. -/
theorem quota_ledger_sound_witness :
    limitOf [("u", ⟨[("daily_tasks", 10)], [("daily_tasks", 9)]⟩)] "u" "daily_tasks" ≠ -1 ∧
    usedOf [("u", ⟨[("daily_tasks", 10)], [("daily_tasks", 9)]⟩)] "u" "daily_tasks" ≤
      limitOf [("u", ⟨[("daily_tasks", 10)], [("daily_tasks", 9)]⟩)] "u" "daily_tasks" ∧
    usedOf (consumeMany [("u", "daily_tasks", 1), ("u", "daily_tasks", 1)]
        [("u", ⟨[("daily_tasks", 10)], [("daily_tasks", 9)]⟩)]) "u" "daily_tasks" ≤
      limitOf (consumeMany [("u", "daily_tasks", 1), ("u", "daily_tasks", 1)]
        [("u", ⟨[("daily_tasks", 10)], [("daily_tasks", 9)]⟩)]) "u" "daily_tasks" := by
  refine ⟨by decide, by decide, ?_⟩
  exact (quota_ledger_sound [("u", "daily_tasks", 1), ("u", "daily_tasks", 1)]
    [("u", ⟨[("daily_tasks", 10)], [("daily_tasks", 9)]⟩)] "u" "daily_tasks"
    (by decide) (by decide)).1

/-- C10, claim statement: check_quota denies unknown users, and for an
existing user a resource key absent from quota_limits is treated as limit 0,
so any request of amount at least 1 is denied (given the recorded used
counter is not negative, as for every counter the backend ever creates). -/
theorem check_quota_denies_by_default
    (users : UMState) (uid qt : String) (amt : Int) :
    (dfind users uid = none → check_quota users uid qt amt = false) ∧
    (∀ user, dfind users uid = some user →
      dmem user.quota_limits qt = false →
      0 ≤ dget user.quota_used qt 0 →
      1 ≤ amt →
      check_quota users uid qt amt = false) := by
  constructor
  · intro h
    unfold check_quota
    rw [h]
  · intro user hf hmem hused hamt
    unfold check_quota
    rw [hf]
    simp only
    have hlim : dget user.quota_limits qt 0 = 0 := by
      rw [dget_eq_dfind]
      cases hd : dfind user.quota_limits qt with
      | none => rfl
      | some v =>
        exfalso
        have := (dmem_iff_dfind user.quota_limits qt).2 ⟨v, hd⟩
        rw [hmem] at this
        exact absurd this (by simp)
    rw [hlim, if_neg (by decide : ¬ (0 : Int) = -1)]
    have : ¬ (dget user.quota_used qt 0 + amt ≤ 0) := by omega
    exact decide_eq_false this

/-- C10 witness: a user whose quota_limits lacks the requested resource is
denied an amount of 1, and an unknown user is denied. -/
theorem check_quota_denies_by_default_witness :
    check_quota [("u", ⟨[("daily_tasks", 10)], [("daily_tasks", 0)]⟩)] "u" "video_generation" 1 = false ∧
    check_quota [("u", ⟨[("daily_tasks", 10)], [("daily_tasks", 0)]⟩)] "ghost" "daily_tasks" 1 = false := by
  constructor
  · exact (check_quota_denies_by_default
      [("u", ⟨[("daily_tasks", 10)], [("daily_tasks", 0)]⟩)] "u" "video_generation" 1).2
      ⟨[("daily_tasks", 10)], [("daily_tasks", 0)]⟩ (by decide) (by decide) (by decide) (by decide)
  · exact (check_quota_denies_by_default
      [("u", ⟨[("daily_tasks", 10)], [("daily_tasks", 0)]⟩)] "ghost" "daily_tasks" 1).1
      (by decide)

/-! ## TaskManager

From cloud-backend/services/task_manager.py.  The task store, the FIFO
asyncio queue and the active_tasks registry are modeled directly; the
process_queue scheduler loop and the _process_single_task worker are
decomposed into atomic steps at their await points so that the interleaved
executions asyncio can produce are the op sequences of the model. -/

inductive TaskStatus
  | pending
  | processing
  | completed
  | failed
  | cancelled
  deriving DecidableEq

/-- task_manager.Task restricted to the fields the claims are about:
user_id, prompt, parameters, the datetime fields and estimated_duration are
mentioned by no claim and are omitted; the result dict is abstracted to a
Nat payload (only its presence matters to the claims). -/
structure Task where
  status : TaskStatus
  progress : Int := 0
  result : Option Nat := none
  error : Option String := none
  deriving DecidableEq

/-- The TaskManager state plus the process_queue loop coroutines decomposed
at their await points and two history variables recording enqueue/dequeue
order.  Task ids are drawn from the next_id counter, mirroring uuid
freshness.  loops_start counts process_queue coroutines scheduled by
asyncio.create_task that have not yet run their first line (self.processing
is still false for them); loops_check counts loops at the capacity check;
loops_get counts loops suspended in wait_for(task_queue.get()). -/
structure TMState where
  tasks : List (Nat × Task)
  task_queue : List Nat
  active_tasks : List Nat
  max_concurrent_tasks : Nat
  processing : Bool
  loops_start : Nat
  loops_check : Nat
  loops_get : Nat
  next_id : Nat
  enqueued_log : List Nat
  dequeued_log : List Nat
  deriving DecidableEq

/-- TaskManager.__init__. -/
def initTM : TMState :=
  { tasks := [], task_queue := [], active_tasks := [],
    max_concurrent_tasks := 5, processing := false,
    loops_start := 0, loops_check := 0, loops_get := 0,
    next_id := 0, enqueued_log := [], dequeued_log := [] }

/-- TaskManager.create_task: store a PENDING task under a fresh id, enqueue
the id, and, when self.processing is false, schedule one more process_queue
loop via asyncio.create_task (the new loop has not run yet, so
self.processing stays false until its first line executes). -/
def create_task (s : TMState) : Nat × TMState :=
  let id := s.next_id
  (id,
    { s with
      tasks := dset s.tasks id { status := .pending },
      task_queue := s.task_queue ++ [id],
      next_id := id + 1,
      enqueued_log := s.enqueued_log ++ [id],
      loops_start := if s.processing then s.loops_start else s.loops_start + 1 })

/-- TaskManager.update_task_progress: for a known task clamp progress into
[0, 100] and adopt the new status only when one is passed; unknown ids are
ignored.  The source has no guard on the previous status. -/
def update_task_progress (s : TMState) (task_id : Nat) (progress : Int)
    (status : Option TaskStatus) : TMState :=
  match dfind s.tasks task_id with
  | none => s
  | some task =>
    { s with
      tasks := dset s.tasks task_id
        { task with
          progress := max 0 (min 100 progress),
          status := status.getD task.status } }

/-- TaskManager.complete_task: set COMPLETED, progress 100 and the result,
and drop the id from active_tasks. -/
def complete_task (s : TMState) (task_id : Nat) (result : Nat) : TMState :=
  match dfind s.tasks task_id with
  | none => s
  | some task =>
    { s with
      tasks := dset s.tasks task_id
        { task with status := .completed, progress := 100, result := some result },
      active_tasks := s.active_tasks.erase task_id }

/-- TaskManager.fail_task: set FAILED and the error message, and drop the
id from active_tasks. -/
def fail_task (s : TMState) (task_id : Nat) (error : String) : TMState :=
  match dfind s.tasks task_id with
  | none => s
  | some task =>
    { s with
      tasks := dset s.tasks task_id
        { task with status := .failed, error := some error },
      active_tasks := s.active_tasks.erase task_id }

/-- TaskManager.cancel_task: a PENDING task is just marked CANCELLED (the
queue entry stays); a task with a registered worker has the worker
cancelled, is marked CANCELLED and leaves active_tasks; otherwise false. -/
def cancel_task (s : TMState) (task_id : Nat) : Bool × TMState :=
  match dfind s.tasks task_id with
  | none => (false, s)
  | some task =>
    if task.status = .pending then
      (true, { s with tasks := dset s.tasks task_id { task with status := .cancelled } })
    else if task_id ∈ s.active_tasks then
      (true,
        { s with
          tasks := dset s.tasks task_id { task with status := .cancelled },
          active_tasks := s.active_tasks.erase task_id })
    else (false, s)

/-- First line of process_queue: a scheduled loop coroutine starts running
and sets self.processing to true. -/
def loop_run_step (s : TMState) : TMState :=
  if s.loops_start = 0 then s
  else
    { s with loops_start := s.loops_start - 1, loops_check := s.loops_check + 1,
             processing := true }

/-- The capacity check at the top of the while loop of process_queue: with
len(active_tasks) below the cap the loop proceeds to wait on the queue;
otherwise it sleeps and will check again. -/
def loop_check_step (s : TMState) : TMState :=
  if s.loops_check = 0 then s
  else if s.active_tasks.length ≥ s.max_concurrent_tasks then s
  else { s with loops_check := s.loops_check - 1, loops_get := s.loops_get + 1 }

/-- wait_for(task_queue.get()) returns: the loop pops the queue head and,
when the id is a known task, creates the worker and registers it in
active_tasks (no status check); either way it returns to the capacity
check. -/
def loop_get_step (s : TMState) : TMState :=
  if s.loops_get = 0 then s
  else
    match s.task_queue with
    | [] => s
    | t :: rest =>
      if dmem s.tasks t then
        { s with task_queue := rest, active_tasks := s.active_tasks ++ [t],
                 dequeued_log := s.dequeued_log ++ [t],
                 loops_get := s.loops_get - 1, loops_check := s.loops_check + 1 }
      else
        { s with task_queue := rest, dequeued_log := s.dequeued_log ++ [t],
                 loops_get := s.loops_get - 1, loops_check := s.loops_check + 1 }

/-- wait_for times out on an empty queue: with no active tasks the loop
breaks and its finally block clears self.processing; otherwise it goes back
to the capacity check. -/
def loop_timeout_step (s : TMState) : TMState :=
  if s.loops_get = 0 then s
  else if s.task_queue = [] then
    if s.active_tasks = [] then
      { s with loops_get := s.loops_get - 1, processing := false }
    else { s with loops_get := s.loops_get - 1, loops_check := s.loops_check + 1 }
  else s

/-- First awaited line of _process_single_task: a registered worker marks
its task PROCESSING at progress 0 (the source checks only that the task id
exists, never its status). -/
def worker_start_step (s : TMState) (task_id : Nat) : TMState :=
  if task_id ∈ s.active_tasks then
    update_task_progress s task_id 0 (some .processing)
  else s

/-- The worker's Execute call returned: complete_task. -/
def worker_ok_step (s : TMState) (task_id : Nat) (result : Nat) : TMState :=
  if task_id ∈ s.active_tasks then complete_task s task_id result else s

/-- The worker's Execute call raised: the except branch calls fail_task
with the message of the exception. -/
def worker_err_step (s : TMState) (task_id : Nat) (msg : String) : TMState :=
  if task_id ∈ s.active_tasks then fail_task s task_id msg else s

/-- The CancelledError branch of a worker whose asyncio task cancel_task
cancelled (so the task is already CANCELLED and out of active_tasks):
re-record CANCELLED at the current progress. -/
def worker_cancelled_step (s : TMState) (task_id : Nat) : TMState :=
  match dfind s.tasks task_id with
  | none => s
  | some task =>
    if task.status = .cancelled ∧ task_id ∉ s.active_tasks then
      update_task_progress s task_id task.progress (some .cancelled)
    else s

/-- A progress callback scheduled by ai_processor runs: a pure progress
update with no status argument. -/
def progress_callback_step (s : TMState) (task_id : Nat) (p : Int) : TMState :=
  update_task_progress s task_id p none

/-- The atomic events of the task subsystem: API calls, the scheduler-loop
segments between awaits, and the worker segments between awaits. -/
inductive TMOp
  | opCreate
  | opCancel (task_id : Nat)
  | opLoopRun
  | opLoopCheck
  | opLoopGet
  | opLoopTimeout
  | opWorkerStart (task_id : Nat)
  | opWorkerOk (task_id : Nat) (result : Nat)
  | opWorkerErr (task_id : Nat) (msg : String)
  | opWorkerCancelled (task_id : Nat)
  | opProgress (task_id : Nat) (p : Int)

def applyTM : TMOp → TMState → TMState
  | .opCreate, s => (create_task s).2
  | .opCancel id, s => (cancel_task s id).2
  | .opLoopRun, s => loop_run_step s
  | .opLoopCheck, s => loop_check_step s
  | .opLoopGet, s => loop_get_step s
  | .opLoopTimeout, s => loop_timeout_step s
  | .opWorkerStart id, s => worker_start_step s id
  | .opWorkerOk id r, s => worker_ok_step s id r
  | .opWorkerErr id m, s => worker_err_step s id m
  | .opWorkerCancelled id, s => worker_cancelled_step s id
  | .opProgress id p, s => progress_callback_step s id p

/-- Run a finite interleaving of task-subsystem events. -/
def runTM (ops : List TMOp) (s : TMState) : TMState :=
  ops.foldl (fun s op => applyTM op s) s

def statusOfTask (s : TMState) (task_id : Nat) : Option TaskStatus :=
  (dfind s.tasks task_id).map (fun t => t.status)

def errorOfTask (s : TMState) (task_id : Nat) : Option (Option String) :=
  (dfind s.tasks task_id).map (fun t => t.error)

def resultOfTask (s : TMState) (task_id : Nat) : Option (Option Nat) :=
  (dfind s.tasks task_id).map (fun t => t.result)

def progressOfTask (s : TMState) (task_id : Nat) : Option Int :=
  (dfind s.tasks task_id).map (fun t => t.progress)

/-- The number of stored tasks whose status is PROCESSING. -/
def processing_count (s : TMState) : Nat :=
  (s.tasks.filter (fun p => decide (p.2.status = .processing))).length

/-- The number of live process_queue loop coroutines. -/
def num_loops (s : TMState) : Nat :=
  s.loops_start + s.loops_check + s.loops_get

/-- What AIProcessor.process_task can come back with at the worker
boundary: a result dict, an exception carrying a message, or an
asyncio.CancelledError injected by cancel_task. -/
inductive ExecOutcome
  | ok (result : Nat)
  | err (msg : String)
  | cancelled

/-- TaskManager._process_single_task as one function of the Execute
outcome: mark PROCESSING, run the processor, then complete_task on success,
fail_task with str(e) on an exception, and on CancelledError re-record
CANCELLED at the task's current progress; the finally block drops the id
from active_tasks. -/
def process_single_task (s : TMState) (task_id : Nat) (outcome : ExecOutcome) :
    TMState :=
  match dfind s.tasks task_id with
  | none => s
  | some _ =>
    let s1 := update_task_progress s task_id 0 (some .processing)
    let s2 :=
      match outcome with
      | .ok r => complete_task s1 task_id r
      | .err msg => fail_task s1 task_id msg
      | .cancelled =>
        match dfind s1.tasks task_id with
        | none => s1
        | some t1 => update_task_progress s1 task_id t1.progress (some .cancelled)
    { s2 with active_tasks := s2.active_tasks.erase task_id }

/-- The five Task Store operations named by the specification, applied in
arbitrary order (create, update_progress, complete, fail, cancel). -/
inductive StoreOp
  | screate
  | supdate (task_id : Nat) (progress : Int) (status : Option TaskStatus)
  | scomplete (task_id : Nat) (result : Nat)
  | sfail (task_id : Nat) (msg : String)
  | scancel (task_id : Nat)

def applyStore : StoreOp → TMState → TMState
  | .screate, s => (create_task s).2
  | .supdate id p st, s => update_task_progress s id p st
  | .scomplete id r, s => complete_task s id r
  | .sfail id m, s => fail_task s id m
  | .scancel id, s => (cancel_task s id).2

def runStore (ops : List StoreOp) (s : TMState) : TMState :=
  ops.foldl (fun s op => applyStore op s) s

/-! ## C5: worker-boundary failure isolation -/

/-- C5, claim statement: for a stored task with no error recorded, an
exception from the Execute capability makes _process_single_task record a
FAILED transition carrying exactly the exception's message, while a
CancelledError yields CANCELLED with the error field still unset; in both
cases the worker returns a state instead of propagating (the embedding of
_process_single_task is a total function covering every outcome). -/
theorem worker_failure_isolation (s : TMState) (task_id : Nat) (t : Task)
    (hf : dfind s.tasks task_id = some t) (herr : t.error = none) :
    (∀ msg,
      statusOfTask (process_single_task s task_id (.err msg)) task_id =
        some TaskStatus.failed ∧
      errorOfTask (process_single_task s task_id (.err msg)) task_id =
        some (some msg)) ∧
    (statusOfTask (process_single_task s task_id .cancelled) task_id =
        some TaskStatus.cancelled ∧
      errorOfTask (process_single_task s task_id .cancelled) task_id =
        some none) := by
  constructor
  · intro msg
    unfold process_single_task update_task_progress fail_task
    rw [hf]
    simp only [hf, dfind_dset_self, statusOfTask, errorOfTask]
    simp
  · unfold process_single_task update_task_progress
    rw [hf]
    simp only [hf, dfind_dset_self, statusOfTask, errorOfTask]
    simp [herr]

/-- C5 witness: a concrete pending task, failed with message boom and
cancelled, evaluated through the theorem. -/
theorem worker_failure_isolation_witness :
    statusOfTask (process_single_task
        { initTM with tasks := [(0, { status := TaskStatus.pending })] } 0
        (ExecOutcome.err "boom")) 0 = some TaskStatus.failed ∧
    errorOfTask (process_single_task
        { initTM with tasks := [(0, { status := TaskStatus.pending })] } 0
        (ExecOutcome.err "boom")) 0 = some (some "boom") ∧
    statusOfTask (process_single_task
        { initTM with tasks := [(0, { status := TaskStatus.pending })] } 0
        ExecOutcome.cancelled) 0 = some TaskStatus.cancelled ∧
    errorOfTask (process_single_task
        { initTM with tasks := [(0, { status := TaskStatus.pending })] } 0
        ExecOutcome.cancelled) 0 = some none := by
  have h := worker_failure_isolation
    { initTM with tasks := [(0, { status := TaskStatus.pending })] } 0
    { status := TaskStatus.pending } rfl rfl
  exact ⟨(h.1 "boom").1, (h.1 "boom").2, h.2.1, h.2.2⟩

/-! ## C8: result/error iff status invariant -/

/-- The record invariant claimed for all tasks: result is set exactly for
COMPLETED, error exactly for FAILED. -/
def TaskRecordInv (t : Task) : Prop :=
  ((t.result ≠ none) ↔ t.status = TaskStatus.completed) ∧
  ((t.error ≠ none) ↔ t.status = TaskStatus.failed)

instance (t : Task) : Decidable (TaskRecordInv t) := by
  unfold TaskRecordInv
  infer_instance

/-- C8 counterexample: over arbitrary sequences of the five store
operations the invariant fails; update_task_progress(id, 50, COMPLETED) on
a fresh task yields status COMPLETED with result still None. -/
theorem task_record_invariant_cex :
    dfind (runStore [StoreOp.screate,
        StoreOp.supdate 0 50 (some TaskStatus.completed)] initTM).tasks 0 =
      some { status := TaskStatus.completed, progress := 50,
             result := none, error := none } ∧
    ¬ TaskRecordInv { status := TaskStatus.completed, progress := 50,
                      result := none, error := none } := by
  decide

/-- Per-state precondition under which a store operation respects the
record invariant: update_task_progress never passes COMPLETED or FAILED and
passes an explicit status only to non-terminal tasks; complete_task is not
applied to FAILED tasks, fail_task not to COMPLETED tasks; cancel_task is
not applied to a COMPLETED or FAILED task that still sits in
active_tasks. -/
def storeOpOk (op : StoreOp) (s : TMState) : Bool :=
  match op with
  | .screate => true
  | .supdate id _ st =>
    match st, dfind s.tasks id with
    | none, _ => true
    | some _, none => true
    | some st', some t =>
      decide (st' ≠ TaskStatus.completed) && decide (st' ≠ TaskStatus.failed) &&
      decide (t.status ≠ TaskStatus.completed) && decide (t.status ≠ TaskStatus.failed)
  | .scomplete id _ =>
    match dfind s.tasks id with
    | none => true
    | some t => decide (t.status ≠ TaskStatus.failed)
  | .sfail id _ =>
    match dfind s.tasks id with
    | none => true
    | some t => decide (t.status ≠ TaskStatus.completed)
  | .scancel id =>
    match dfind s.tasks id with
    | none => true
    | some t =>
      decide (t.status = TaskStatus.pending) || !(decide (id ∈ s.active_tasks)) ||
      (decide (t.status ≠ TaskStatus.completed) && decide (t.status ≠ TaskStatus.failed))

/-- All steps of a store-op sequence satisfy their precondition in the
state they execute in. -/
def okStoreTrace : List StoreOp → TMState → Bool
  | [], _ => true
  | op :: ops, s => storeOpOk op s && okStoreTrace ops (applyStore op s)

theorem store_step_preserves_inv (op : StoreOp) (s : TMState)
    (hok : storeOpOk op s = true)
    (hinv : ∀ id t, dfind s.tasks id = some t → TaskRecordInv t) :
    ∀ id t, dfind (applyStore op s).tasks id = some t → TaskRecordInv t := by
  cases op with
  | screate =>
    intro id t ht
    simp only [applyStore] at ht
    unfold create_task at ht
    simp only at ht
    by_cases hid : id = s.next_id
    · subst hid
      rw [dfind_dset_self] at ht
      cases ht
      decide
    · rw [dfind_dset_ne _ _ _ _ hid] at ht
      exact hinv id t ht
  | supdate tid p st =>
    intro id t ht
    simp only [applyStore] at ht
    unfold update_task_progress at ht
    cases hf : dfind s.tasks tid with
    | none => rw [hf] at ht; exact hinv id t ht
    | some t0 =>
      rw [hf] at ht
      simp only at ht
      by_cases hid : id = tid
      · subst hid
        rw [dfind_dset_self] at ht
        cases ht
        have h0 := hinv id t0 hf
        simp only [storeOpOk] at hok
        cases st with
        | none =>
          unfold TaskRecordInv at h0 ⊢
          simpa using h0
        | some st' =>
          rw [hf] at hok
          simp only [Bool.and_eq_true, decide_eq_true_eq] at hok
          obtain ⟨⟨⟨hs1, hs2⟩, hc⟩, hfl⟩ := hok
          have hres : t0.result = none := by
            by_cases hr : t0.result = none
            · exact hr
            · exact absurd (h0.1.1 hr) hc
          have herr : t0.error = none := by
            by_cases hr : t0.error = none
            · exact hr
            · exact absurd (h0.2.1 hr) hfl
          unfold TaskRecordInv
          simp [hres, herr, hs1, hs2]
      · rw [dfind_dset_ne _ _ _ _ hid] at ht
        exact hinv id t ht
  | scomplete tid r =>
    intro id t ht
    simp only [applyStore] at ht
    unfold complete_task at ht
    cases hf : dfind s.tasks tid with
    | none => rw [hf] at ht; exact hinv id t ht
    | some t0 =>
      rw [hf] at ht
      simp only at ht
      by_cases hid : id = tid
      · subst hid
        rw [dfind_dset_self] at ht
        cases ht
        have h0 := hinv id t0 hf
        simp only [storeOpOk] at hok
        rw [hf] at hok
        simp only [decide_eq_true_eq] at hok
        have herr : t0.error = none := by
          by_cases hr : t0.error = none
          · exact hr
          · exact absurd (h0.2.1 hr) hok
        unfold TaskRecordInv
        simp [herr]
      · rw [dfind_dset_ne _ _ _ _ hid] at ht
        exact hinv id t ht
  | sfail tid m =>
    intro id t ht
    simp only [applyStore] at ht
    unfold fail_task at ht
    cases hf : dfind s.tasks tid with
    | none => rw [hf] at ht; exact hinv id t ht
    | some t0 =>
      rw [hf] at ht
      simp only at ht
      by_cases hid : id = tid
      · subst hid
        rw [dfind_dset_self] at ht
        cases ht
        have h0 := hinv id t0 hf
        simp only [storeOpOk] at hok
        rw [hf] at hok
        simp only [decide_eq_true_eq] at hok
        have hres : t0.result = none := by
          by_cases hr : t0.result = none
          · exact hr
          · exact absurd (h0.1.1 hr) hok
        unfold TaskRecordInv
        simp [hres]
      · rw [dfind_dset_ne _ _ _ _ hid] at ht
        exact hinv id t ht
  | scancel tid =>
    intro id t ht
    simp only [applyStore] at ht
    unfold cancel_task at ht
    cases hf : dfind s.tasks tid with
    | none => rw [hf] at ht; exact hinv id t ht
    | some t0 =>
      rw [hf] at ht
      simp only at ht
      have hnonterm : (t0.status = TaskStatus.pending ∨ tid ∈ s.active_tasks) →
          dfind (dset s.tasks tid { t0 with status := TaskStatus.cancelled }) id = some t →
          TaskRecordInv t := by
        intro hbr ht'
        by_cases hid : id = tid
        · subst hid
          rw [dfind_dset_self] at ht'
          cases ht'
          have h0 := hinv id t0 hf
          simp only [storeOpOk] at hok
          rw [hf] at hok
          simp only [Bool.or_eq_true, Bool.and_eq_true, Bool.not_eq_true,
            decide_eq_true_eq, decide_eq_false_iff_not] at hok
          have hres : t0.result = none := by
            by_cases hr : t0.result = none
            · exact hr
            · -- a completed task: the precondition rules the mutating branches out
              have hcomp := h0.1.1 hr
              rcases hok with (hp | hna) | ⟨hc, hc2⟩
              · rw [hp] at hcomp; cases hcomp
              · rcases hbr with hb | hb
                · rw [hb] at hcomp; cases hcomp
                · exact absurd hb (by simpa using hna)
              · exact absurd hcomp hc
          have herr : t0.error = none := by
            by_cases hr : t0.error = none
            · exact hr
            · have hfl := h0.2.1 hr
              rcases hok with (hp | hna) | ⟨hc2, hc⟩
              · rw [hp] at hfl; cases hfl
              · rcases hbr with hb | hb
                · rw [hb] at hfl; cases hfl
                · exact absurd hb (by simpa using hna)
              · exact absurd hfl hc
          unfold TaskRecordInv
          simp [hres, herr]
        · rw [dfind_dset_ne _ _ _ _ hid] at ht'
          exact hinv id t ht'
      by_cases hp : t0.status = TaskStatus.pending
      · rw [if_pos hp] at ht
        exact hnonterm (Or.inl hp) ht
      · rw [if_neg hp] at ht
        by_cases ha : tid ∈ s.active_tasks
        · rw [if_pos ha] at ht
          exact hnonterm (Or.inr ha) ht
        · rw [if_neg ha] at ht
          exact hinv id t ht

/-- C8 amended: the iff-invariant (result set exactly for COMPLETED, error
exactly for FAILED) holds for every store-op sequence whose steps satisfy
storeOpOk, i.e. in which update_progress never passes a COMPLETED or FAILED
status and passes an explicit status only to non-terminal tasks, complete
is not applied to FAILED tasks, fail is not applied to COMPLETED tasks, and
cancel is not applied to a terminal task still registered in
active_tasks. -/
theorem task_record_invariant_amended (ops : List StoreOp) (s : TMState)
    (hinv : ∀ id t, dfind s.tasks id = some t → TaskRecordInv t)
    (hok : okStoreTrace ops s = true) :
    ∀ id t, dfind (runStore ops s).tasks id = some t → TaskRecordInv t := by
  induction ops generalizing s with
  | nil => exact hinv
  | cons op ops ih =>
    unfold okStoreTrace at hok
    simp only [Bool.and_eq_true] at hok
    exact ih (applyStore op s)
      (store_step_preserves_inv op s hok.1 hinv) hok.2

/-- C8 witness: a create followed by a completion is an okStoreTrace, and
the theorem yields the invariant for the resulting completed task. -/
theorem task_record_invariant_amended_witness :
    okStoreTrace [StoreOp.screate, StoreOp.scomplete 0 7] initTM = true ∧
    dfind (runStore [StoreOp.screate, StoreOp.scomplete 0 7] initTM).tasks 0 =
      some { status := TaskStatus.completed, progress := 100,
             result := some 7, error := none } ∧
    TaskRecordInv { status := TaskStatus.completed, progress := 100,
                    result := some 7, error := none } := by
  refine ⟨by decide, by decide, ?_⟩
  exact task_record_invariant_amended [StoreOp.screate, StoreOp.scomplete 0 7] initTM
    (by intro id t ht; simp [initTM, dfind] at ht) (by decide) 0 _ (by decide)

/-! ## C1: terminal statuses are not sticky (cancelled while pending) -/

/-- C1, evaluation at the failing input: create a task, cancel it while
PENDING (it is recorded CANCELLED), then let the scheduler loop pop it: the
loop only checks membership in self.tasks, so the worker moves the
cancelled task to PROCESSING, and its completion even overwrites that with
COMPLETED. -/
theorem cancelled_pending_task_reaches_processing :
    (cancel_task (runTM [TMOp.opCreate] initTM) 0).1 = true ∧
    statusOfTask (runTM [TMOp.opCreate, TMOp.opCancel 0] initTM) 0 =
      some TaskStatus.cancelled ∧
    statusOfTask (runTM [TMOp.opCreate, TMOp.opCancel 0, TMOp.opLoopRun,
        TMOp.opLoopCheck, TMOp.opLoopGet, TMOp.opWorkerStart 0] initTM) 0 =
      some TaskStatus.processing ∧
    statusOfTask (runTM [TMOp.opCreate, TMOp.opCancel 0, TMOp.opLoopRun,
        TMOp.opLoopCheck, TMOp.opLoopGet, TMOp.opWorkerStart 0,
        TMOp.opWorkerOk 0 42] initTM) 0 = some TaskStatus.completed := by
  decide

/-! ## C4: scheduler concurrency bound -/

theorem dmem_iff_mem_keys {κ α : Type} [DecidableEq κ] (d : List (κ × α)) (k : κ) :
    dmem d k = true ↔ k ∈ d.map Prod.fst := by
  induction d with
  | nil => simp [dmem]
  | cons p rest ih =>
    obtain ⟨k', v⟩ := p
    by_cases h : k' = k
    · simp [dmem, h]
    · simp only [dmem, List.map_cons, List.mem_cons]
      constructor
      · intro hh
        rcases Bool.or_eq_true_iff.1 hh with hh | hh
        · exact absurd (of_decide_eq_true hh) h
        · exact Or.inr (ih.1 hh)
      · intro hh
        rcases hh with hh | hh
        · exact absurd hh.symm h
        · exact Bool.or_eq_true_iff.2 (Or.inr (ih.2 hh))

theorem keys_dset_of_dmem {κ α : Type} [DecidableEq κ] (d : List (κ × α)) (k : κ)
    (v : α) (h : dmem d k = true) :
    (dset d k v).map Prod.fst = d.map Prod.fst := by
  induction d with
  | nil => simp [dmem] at h
  | cons p rest ih =>
    obtain ⟨k', v'⟩ := p
    by_cases hk : k' = k
    · subst hk; simp [dset]
    · simp only [dmem, Bool.or_eq_true_iff, decide_eq_true_eq] at h
      rcases h with h | h
      · exact absurd h hk
      · simp [dset, hk, ih h]

theorem keys_dset_of_not_dmem {κ α : Type} [DecidableEq κ] (d : List (κ × α)) (k : κ)
    (v : α) (h : dmem d k = false) :
    (dset d k v).map Prod.fst = d.map Prod.fst ++ [k] := by
  induction d with
  | nil => simp [dset]
  | cons p rest ih =>
    obtain ⟨k', v'⟩ := p
    by_cases hk : k' = k
    · subst hk; simp [dmem] at h
    · simp only [dmem, Bool.or_eq_false_iff] at h
      simp [dset, hk, ih h.2]

theorem dfind_of_mem_nodup {κ α : Type} [DecidableEq κ] (d : List (κ × α)) (k : κ)
    (v : α) (hnd : (d.map Prod.fst).Nodup) (h : (k, v) ∈ d) :
    dfind d k = some v := by
  induction d with
  | nil => simp at h
  | cons p rest ih =>
    obtain ⟨k', v'⟩ := p
    simp only [List.map_cons, List.nodup_cons] at hnd
    rcases List.mem_cons.1 h with he | hrest
    · rw [Prod.mk.injEq] at he
      obtain ⟨hek, hev⟩ := he
      subst hek
      subst hev
      simp [dfind]
    · by_cases hk : k' = k
      · exfalso
        subst hk
        exact hnd.1 (List.mem_map.2 ⟨(k', v), hrest, rfl⟩)
      · simp only [dfind]
        rw [if_neg hk]
        exact ih hnd.2 hrest

/-- The inductive invariant of the task subsystem: ids are below the
counter, the store has no duplicate keys, every PROCESSING task is
registered in active_tasks, the workers plus the loops already past the
capacity check stay below max_concurrent_tasks plus the number of live
loops, and dequeue order extends to enqueue order. -/
def TMInv (s : TMState) : Prop :=
  (∀ k, k ∈ s.tasks.map Prod.fst → k < s.next_id) ∧
  (s.tasks.map Prod.fst).Nodup ∧
  (∀ id t, dfind s.tasks id = some t → t.status = TaskStatus.processing →
    id ∈ s.active_tasks) ∧
  s.active_tasks.length + s.loops_get + 1 ≤ s.max_concurrent_tasks + num_loops s ∧
  s.dequeued_log ++ s.task_queue = s.enqueued_log

theorem tminv_init : TMInv initTM := by
  refine ⟨?_, ?_, ?_, ?_, ?_⟩
  · intro k hk; simp [initTM] at hk
  · simp [initTM]
  · intro id t hf; simp [initTM, dfind] at hf
  · decide
  · decide

theorem tminv_step (op : TMOp) (s : TMState) (h : TMInv s) : TMInv (applyTM op s) := by
  obtain ⟨h1, h2, h3, h4, h5⟩ := h
  cases op with
  | opCreate =>
    have hmemF : dmem s.tasks s.next_id = false := by
      cases hd : dmem s.tasks s.next_id with
      | false => rfl
      | true =>
        exfalso
        have := h1 s.next_id ((dmem_iff_mem_keys _ _).1 hd)
        omega
    simp only [applyTM]
    unfold create_task
    simp only
    refine ⟨?_, ?_, ?_, ?_, ?_⟩
    · intro k hk
      rw [keys_dset_of_not_dmem _ _ _ hmemF] at hk
      rcases List.mem_append.1 hk with hk | hk
      · have := h1 k hk
        show k < s.next_id + 1
        omega
      · simp only [List.mem_singleton] at hk
        subst hk
        show s.next_id < s.next_id + 1
        omega
    · rw [keys_dset_of_not_dmem _ _ _ hmemF]
      refine h2.append (List.nodup_singleton _) ?_
      intro a ha hb
      simp only [List.mem_singleton] at hb
      subst hb
      have := h1 _ ha
      omega
    · intro id t hf hst
      by_cases hid : id = s.next_id
      · subst hid
        rw [dfind_dset_self] at hf
        cases hf
        simp at hst
      · rw [dfind_dset_ne _ _ _ _ hid] at hf
        exact h3 id t hf hst
    · unfold num_loops at h4
      show s.active_tasks.length + s.loops_get + 1 ≤
        s.max_concurrent_tasks +
          ((if s.processing = true then s.loops_start else s.loops_start + 1) +
            s.loops_check + s.loops_get)
      by_cases hp : s.processing = true
      · rw [if_pos hp]; omega
      · rw [if_neg hp]; omega
    · show s.dequeued_log ++ (s.task_queue ++ [s.next_id]) =
        s.enqueued_log ++ [s.next_id]
      rw [← List.append_assoc, h5]
  | opCancel id =>
    simp only [applyTM]
    unfold cancel_task
    cases hf : dfind s.tasks id with
    | none => exact ⟨h1, h2, h3, h4, h5⟩
    | some t0 =>
      simp only
      have hkeys := keys_dset_of_dmem s.tasks id
        { t0 with status := TaskStatus.cancelled }
        ((dmem_iff_dfind _ _).2 ⟨t0, hf⟩)
      by_cases hp : t0.status = TaskStatus.pending
      · rw [if_pos hp]
        refine ⟨?_, ?_, ?_, h4, h5⟩
        · intro k hk; rw [hkeys] at hk; exact h1 k hk
        · rw [hkeys]; exact h2
        · intro id' t hf' hst
          by_cases hid : id' = id
          · subst hid
            rw [dfind_dset_self] at hf'
            cases hf'
            simp at hst
          · rw [dfind_dset_ne _ _ _ _ hid] at hf'
            exact h3 id' t hf' hst
      · rw [if_neg hp]
        by_cases ha : id ∈ s.active_tasks
        · rw [if_pos ha]
          refine ⟨?_, ?_, ?_, ?_, h5⟩
          · intro k hk; rw [hkeys] at hk; exact h1 k hk
          · rw [hkeys]; exact h2
          · intro id' t hf' hst
            by_cases hid : id' = id
            · subst hid
              rw [dfind_dset_self] at hf'
              cases hf'
              simp at hst
            · rw [dfind_dset_ne _ _ _ _ hid] at hf'
              exact (List.mem_erase_of_ne hid).2 (h3 id' t hf' hst)
          · have hlen := (List.erase_sublist id s.active_tasks).length_le
            unfold num_loops at h4
            show (s.active_tasks.erase id).length + s.loops_get + 1 ≤
              s.max_concurrent_tasks + (s.loops_start + s.loops_check + s.loops_get)
            omega
        · rw [if_neg ha]
          exact ⟨h1, h2, h3, h4, h5⟩
  | opLoopRun =>
    simp only [applyTM]
    unfold loop_run_step
    by_cases h0 : s.loops_start = 0
    · rw [if_pos h0]; exact ⟨h1, h2, h3, h4, h5⟩
    · rw [if_neg h0]
      refine ⟨h1, h2, h3, ?_, h5⟩
      unfold num_loops at h4
      show s.active_tasks.length + s.loops_get + 1 ≤
        s.max_concurrent_tasks +
          (s.loops_start - 1 + (s.loops_check + 1) + s.loops_get)
      omega
  | opLoopCheck =>
    simp only [applyTM]
    unfold loop_check_step
    by_cases h0 : s.loops_check = 0
    · rw [if_pos h0]; exact ⟨h1, h2, h3, h4, h5⟩
    · rw [if_neg h0]
      by_cases hcap : s.active_tasks.length ≥ s.max_concurrent_tasks
      · rw [if_pos hcap]; exact ⟨h1, h2, h3, h4, h5⟩
      · rw [if_neg hcap]
        refine ⟨h1, h2, h3, ?_, h5⟩
        unfold num_loops at h4
        show s.active_tasks.length + (s.loops_get + 1) + 1 ≤
          s.max_concurrent_tasks +
            (s.loops_start + (s.loops_check - 1) + (s.loops_get + 1))
        omega
  | opLoopGet =>
    simp only [applyTM]
    unfold loop_get_step
    by_cases h0 : s.loops_get = 0
    · rw [if_pos h0]; exact ⟨h1, h2, h3, h4, h5⟩
    · rw [if_neg h0]
      cases hq : s.task_queue with
      | nil => exact ⟨h1, h2, h3, h4, h5⟩
      | cons t rest =>
        rw [hq] at h5
        by_cases hm : dmem s.tasks t = true
        · simp only [hm, if_true]
          refine ⟨h1, h2, ?_, ?_, ?_⟩
          · intro id' t' hf' hst
            simp only
            exact List.mem_append_left _ (h3 id' t' hf' hst)
          · unfold num_loops at h4
            show (s.active_tasks ++ [t]).length + (s.loops_get - 1) + 1 ≤
              s.max_concurrent_tasks +
                (s.loops_start + (s.loops_check + 1) + (s.loops_get - 1))
            rw [List.length_append]
            simp only [List.length_singleton]
            omega
          · show s.dequeued_log ++ [t] ++ rest = s.enqueued_log
            rw [List.append_assoc, List.singleton_append]
            exact h5
        · simp only [hm, if_false]
          refine ⟨h1, h2, h3, ?_, ?_⟩
          · unfold num_loops at h4
            show s.active_tasks.length + (s.loops_get - 1) + 1 ≤
              s.max_concurrent_tasks +
                (s.loops_start + (s.loops_check + 1) + (s.loops_get - 1))
            omega
          · show s.dequeued_log ++ [t] ++ rest = s.enqueued_log
            rw [List.append_assoc, List.singleton_append]
            exact h5
  | opLoopTimeout =>
    simp only [applyTM]
    unfold loop_timeout_step
    by_cases h0 : s.loops_get = 0
    · rw [if_pos h0]; exact ⟨h1, h2, h3, h4, h5⟩
    · rw [if_neg h0]
      by_cases hq : s.task_queue = []
      · rw [if_pos hq]
        by_cases ha : s.active_tasks = []
        · rw [if_pos ha]
          refine ⟨h1, h2, h3, ?_, h5⟩
          unfold num_loops at h4
          show s.active_tasks.length + (s.loops_get - 1) + 1 ≤
            s.max_concurrent_tasks +
              (s.loops_start + s.loops_check + (s.loops_get - 1))
          omega
        · rw [if_neg ha]
          refine ⟨h1, h2, h3, ?_, h5⟩
          unfold num_loops at h4
          show s.active_tasks.length + (s.loops_get - 1) + 1 ≤
            s.max_concurrent_tasks +
              (s.loops_start + (s.loops_check + 1) + (s.loops_get - 1))
          omega
      · rw [if_neg hq]
        exact ⟨h1, h2, h3, h4, h5⟩
  | opWorkerStart id =>
    simp only [applyTM]
    unfold worker_start_step
    by_cases ha : id ∈ s.active_tasks
    · rw [if_pos ha]
      unfold update_task_progress
      cases hf : dfind s.tasks id with
      | none => exact ⟨h1, h2, h3, h4, h5⟩
      | some t0 =>
        simp only
        have hkeys := keys_dset_of_dmem s.tasks id
          { t0 with progress := max 0 (min 100 0),
                    status := (some TaskStatus.processing).getD t0.status }
          ((dmem_iff_dfind _ _).2 ⟨t0, hf⟩)
        refine ⟨?_, ?_, ?_, h4, h5⟩
        · intro k hk; rw [hkeys] at hk; exact h1 k hk
        · rw [hkeys]; exact h2
        · intro id' t' hf' hst
          by_cases hid : id' = id
          · subst hid; exact ha
          · rw [dfind_dset_ne _ _ _ _ hid] at hf'
            exact h3 id' t' hf' hst
    · rw [if_neg ha]
      exact ⟨h1, h2, h3, h4, h5⟩
  | opWorkerOk id r =>
    simp only [applyTM]
    unfold worker_ok_step
    by_cases ha : id ∈ s.active_tasks
    · rw [if_pos ha]
      unfold complete_task
      cases hf : dfind s.tasks id with
      | none => exact ⟨h1, h2, h3, h4, h5⟩
      | some t0 =>
        simp only
        have hkeys := keys_dset_of_dmem s.tasks id
          { t0 with status := TaskStatus.completed, progress := 100, result := some r }
          ((dmem_iff_dfind _ _).2 ⟨t0, hf⟩)
        refine ⟨?_, ?_, ?_, ?_, h5⟩
        · intro k hk; rw [hkeys] at hk; exact h1 k hk
        · rw [hkeys]; exact h2
        · intro id' t' hf' hst
          by_cases hid : id' = id
          · subst hid
            rw [dfind_dset_self] at hf'
            cases hf'
            simp at hst
          · rw [dfind_dset_ne _ _ _ _ hid] at hf'
            exact (List.mem_erase_of_ne hid).2 (h3 id' t' hf' hst)
        · have hlen := (List.erase_sublist id s.active_tasks).length_le
          unfold num_loops at h4
          show (s.active_tasks.erase id).length + s.loops_get + 1 ≤
            s.max_concurrent_tasks + (s.loops_start + s.loops_check + s.loops_get)
          omega
    · rw [if_neg ha]
      exact ⟨h1, h2, h3, h4, h5⟩
  | opWorkerErr id m =>
    simp only [applyTM]
    unfold worker_err_step
    by_cases ha : id ∈ s.active_tasks
    · rw [if_pos ha]
      unfold fail_task
      cases hf : dfind s.tasks id with
      | none => exact ⟨h1, h2, h3, h4, h5⟩
      | some t0 =>
        simp only
        have hkeys := keys_dset_of_dmem s.tasks id
          { t0 with status := TaskStatus.failed, error := some m }
          ((dmem_iff_dfind _ _).2 ⟨t0, hf⟩)
        refine ⟨?_, ?_, ?_, ?_, h5⟩
        · intro k hk; rw [hkeys] at hk; exact h1 k hk
        · rw [hkeys]; exact h2
        · intro id' t' hf' hst
          by_cases hid : id' = id
          · subst hid
            rw [dfind_dset_self] at hf'
            cases hf'
            simp at hst
          · rw [dfind_dset_ne _ _ _ _ hid] at hf'
            exact (List.mem_erase_of_ne hid).2 (h3 id' t' hf' hst)
        · have hlen := (List.erase_sublist id s.active_tasks).length_le
          unfold num_loops at h4
          show (s.active_tasks.erase id).length + s.loops_get + 1 ≤
            s.max_concurrent_tasks + (s.loops_start + s.loops_check + s.loops_get)
          omega
    · rw [if_neg ha]
      exact ⟨h1, h2, h3, h4, h5⟩
  | opWorkerCancelled id =>
    simp only [applyTM]
    unfold worker_cancelled_step
    cases hf : dfind s.tasks id with
    | none => exact ⟨h1, h2, h3, h4, h5⟩
    | some t0 =>
      simp only
      by_cases hg : t0.status = TaskStatus.cancelled ∧ id ∉ s.active_tasks
      · rw [if_pos hg]
        unfold update_task_progress
        rw [hf]
        simp only
        have hkeys := keys_dset_of_dmem s.tasks id
          { t0 with progress := max 0 (min 100 t0.progress),
                    status := (some TaskStatus.cancelled).getD t0.status }
          ((dmem_iff_dfind _ _).2 ⟨t0, hf⟩)
        refine ⟨?_, ?_, ?_, h4, h5⟩
        · intro k hk; rw [hkeys] at hk; exact h1 k hk
        · rw [hkeys]; exact h2
        · intro id' t' hf' hst
          by_cases hid : id' = id
          · subst hid
            rw [dfind_dset_self] at hf'
            cases hf'
            simp at hst
          · rw [dfind_dset_ne _ _ _ _ hid] at hf'
            exact h3 id' t' hf' hst
      · rw [if_neg hg]
        exact ⟨h1, h2, h3, h4, h5⟩
  | opProgress id p =>
    simp only [applyTM]
    unfold progress_callback_step update_task_progress
    cases hf : dfind s.tasks id with
    | none => exact ⟨h1, h2, h3, h4, h5⟩
    | some t0 =>
      simp only
      have hkeys := keys_dset_of_dmem s.tasks id
        { t0 with progress := max 0 (min 100 p),
                  status := (none : Option TaskStatus).getD t0.status }
        ((dmem_iff_dfind _ _).2 ⟨t0, hf⟩)
      refine ⟨?_, ?_, ?_, h4, h5⟩
      · intro k hk; rw [hkeys] at hk; exact h1 k hk
      · rw [hkeys]; exact h2
      · intro id' t' hf' hst
        by_cases hid : id' = id
        · subst hid
          rw [dfind_dset_self] at hf'
          cases hf'
          exact h3 _ t0 hf hst
        · rw [dfind_dset_ne _ _ _ _ hid] at hf'
          exact h3 id' t' hf' hst

theorem tminv_run (ops : List TMOp) (s : TMState) (h : TMInv s) : TMInv (runTM ops s) := by
  induction ops generalizing s with
  | nil => exact h
  | cons op ops ih => exact ih (applyTM op s) (tminv_step op s h)

theorem processing_count_le_active (s : TMState)
    (h2 : (s.tasks.map Prod.fst).Nodup)
    (h3 : ∀ id t, dfind s.tasks id = some t → t.status = TaskStatus.processing →
      id ∈ s.active_tasks) :
    processing_count s ≤ s.active_tasks.length := by
  have hsub : (s.tasks.filter (fun p => decide (p.2.status = TaskStatus.processing))).Sublist
      s.tasks := List.filter_sublist _
  have hkeysnd :
      ((s.tasks.filter (fun p => decide (p.2.status = TaskStatus.processing))).map
        Prod.fst).Nodup :=
    h2.sublist (hsub.map Prod.fst)
  have hmem : ∀ k ∈ (s.tasks.filter
      (fun p => decide (p.2.status = TaskStatus.processing))).map Prod.fst,
      k ∈ s.active_tasks := by
    intro k hk
    obtain ⟨p, hp, rfl⟩ := List.mem_map.1 hk
    have hpl := List.mem_filter.1 hp
    have hfind := dfind_of_mem_nodup s.tasks p.1 p.2 h2 hpl.1
    have hst : p.2.status = TaskStatus.processing := by
      simpa using hpl.2
    exact h3 p.1 p.2 hfind hst
  calc processing_count s
      = ((s.tasks.filter (fun p => decide (p.2.status = TaskStatus.processing))).map
          Prod.fst).length := by
        simp [processing_count]
    _ = ((s.tasks.filter (fun p => decide (p.2.status = TaskStatus.processing))).map
          Prod.fst).toFinset.card := (List.toFinset_card_of_nodup hkeysnd).symm
    _ ≤ s.active_tasks.toFinset.card := by
        refine Finset.card_le_card ?_
        intro x hx
        rw [List.mem_toFinset] at hx ⊢
        exact hmem x hx
    _ ≤ s.active_tasks.length := s.active_tasks.toFinset_card_le

/-- C4 amended: over every interleaving of task-subsystem events the number
of PROCESSING tasks stays strictly below max_concurrent_tasks plus the
number of live process_queue loops (so with a single loop the claimed cap
of max_concurrent_tasks holds), and the scheduler always dequeues in FIFO
order (the dequeue history followed by the queue is exactly the enqueue
history). -/
theorem scheduler_concurrency_bound (ops : List TMOp) :
    processing_count (runTM ops initTM) + 1 ≤
      (runTM ops initTM).max_concurrent_tasks + num_loops (runTM ops initTM) ∧
    (runTM ops initTM).dequeued_log ++ (runTM ops initTM).task_queue =
      (runTM ops initTM).enqueued_log := by
  obtain ⟨h1, h2, h3, h4, h5⟩ := tminv_run ops initTM tminv_init
  refine ⟨?_, h5⟩
  have := processing_count_le_active (runTM ops initTM) h2 h3
  omega

/-- The interleaving in which two creates race the startup of the scheduler
loop: both see self.processing still false, so two process_queue loops get
scheduled; each passes the capacity check at 4 active workers and admits
one more task. -/
def schedulerRaceOps : List TMOp :=
  [TMOp.opCreate, TMOp.opCreate, TMOp.opLoopRun,
   TMOp.opCreate, TMOp.opCreate, TMOp.opCreate, TMOp.opCreate,
   TMOp.opLoopCheck, TMOp.opLoopGet,
   TMOp.opLoopCheck, TMOp.opLoopGet,
   TMOp.opLoopCheck, TMOp.opLoopGet,
   TMOp.opLoopCheck, TMOp.opLoopGet,
   TMOp.opLoopCheck, TMOp.opLoopRun, TMOp.opLoopCheck,
   TMOp.opLoopGet, TMOp.opLoopGet,
   TMOp.opWorkerStart 0, TMOp.opWorkerStart 1, TMOp.opWorkerStart 2,
   TMOp.opWorkerStart 3, TMOp.opWorkerStart 4, TMOp.opWorkerStart 5]

/-- C4 counterexample: after the racing interleaving six tasks are in
PROCESSING while max_concurrent_tasks is five, refuting the claimed hard
cap for every reachable state. -/
theorem scheduler_concurrency_cex :
    processing_count (runTM schedulerRaceOps initTM) = 6 ∧
    (runTM schedulerRaceOps initTM).max_concurrent_tasks = 5 := by
  decide

/-! ## RateLimiter

From cloud-backend/services/security_manager.py.  time.time() timestamps
become naturals; since every recorded timestamp is nonnegative, the
truncated subtraction now - window matches the Python float subtraction in
every comparison the code makes.  A user_id of None is the Option none (the
code treats a falsy user_id as absent). -/

inductive SecurityAction
  | allow
  | rate_limit
  | block_temporary
  | block_permanent
  | require_captcha
  deriving DecidableEq

structure RateLimitRule where
  name : String
  requests_per_window : Nat
  window_seconds : Nat
  burst_limit : Option Nat := none
  block_duration_seconds : Nat := 300
  deriving DecidableEq

structure RLState where
  ip_requests : List (String × List Nat)
  user_requests : List (String × List Nat)
  blocked_ips : List (String × Nat)
  blocked_users : List (String × Nat)
  rules : List (String × RateLimitRule)
  deriving DecidableEq

/-- RateLimiter._count_requests: pop entries older than the window start
from the front of the deque, then count what is left (the now argument of
the source is unused by its body). -/
def count_requests (request_queue : List Nat) (window_start : Nat) :
    Nat × List Nat :=
  let cleaned := request_queue.dropWhile (fun t => decide (t < window_start))
  (cleaned.length, cleaned)

/-- The user half of RateLimiter.is_blocked. -/
def is_blocked_user (s : RLState) (user_id : Option String) (now : Nat) :
    Bool × RLState :=
  match user_id with
  | none => (false, s)
  | some u =>
    match dfind s.blocked_users u with
    | none => (false, s)
    | some t =>
      if now < t then (true, s)
      else (false, { s with blocked_users := ddel s.blocked_users u })

/-- RateLimiter.is_blocked: a live IP block answers true at once; an
expired one is lazily deleted before the user block is consulted the same
way. -/
def is_blocked (s : RLState) (ip : String) (user_id : Option String) (now : Nat) :
    Bool × RLState :=
  match dfind s.blocked_ips ip with
  | none => is_blocked_user s user_id now
  | some t =>
    if now < t then (true, s)
    else is_blocked_user { s with blocked_ips := ddel s.blocked_ips ip } user_id now

/-- RateLimiter._block_temporarily: record now + duration as the unblock
time for the IP and, when present, the user. -/
def block_temporarily (s : RLState) (ip : String) (user_id : Option String)
    (duration : Nat) (now : Nat) : RLState :=
  let s1 := { s with blocked_ips := dset s.blocked_ips ip (now + duration) }
  match user_id with
  | none => s1
  | some u => { s1 with blocked_users := dset s1.blocked_users u (now + duration) }

/-- Cleaning pass over the IP deque (the defaultdict access materialises
the entry, so the cleaned deque is stored back). -/
def clean_ip (s : RLState) (ip : String) (window_start : Nat) : Nat × RLState :=
  let c := count_requests (dget s.ip_requests ip []) window_start
  (c.1, { s with ip_requests := dset s.ip_requests ip c.2 })

/-- Cleaning pass over the user deque; a missing user_id contributes count
0 and touches nothing, as in the conditional expression of the source. -/
def clean_user (s : RLState) (user_id : Option String) (window_start : Nat) :
    Nat × RLState :=
  match user_id with
  | none => (0, s)
  | some u =>
    let c := count_requests (dget s.user_requests u []) window_start
    (c.1, { s with user_requests := dset s.user_requests u c.2 })

/-- The final lines of check_rate_limit: record the allowed request's
timestamp for the IP and, when present, the user. -/
def append_now (s : RLState) (ip : String) (user_id : Option String) (now : Nat) :
    RLState :=
  let s1 := { s with
    ip_requests := dset s.ip_requests ip (dget s.ip_requests ip [] ++ [now]) }
  match user_id with
  | none => s1
  | some u =>
    { s1 with
      user_requests := dset s1.user_requests u (dget s1.user_requests u [] ++ [now]) }

/-- The state after the main-window cleaning passes of check_rate_limit
(the lazily-deleting is_blocked ran first). -/
def rl_cleaned (s : RLState) (rule : RateLimitRule) (ip : String)
    (u : Option String) (now : Nat) : RLState :=
  (clean_user (clean_ip (is_blocked s ip u now).2 ip (now - rule.window_seconds)).2
    u (now - rule.window_seconds)).2

/-- max(ip_count, user_count) over the rule's window. -/
def rl_max_count (s : RLState) (rule : RateLimitRule) (ip : String)
    (u : Option String) (now : Nat) : Nat :=
  max (clean_ip (is_blocked s ip u now).2 ip (now - rule.window_seconds)).1
    (clean_user (clean_ip (is_blocked s ip u now).2 ip (now - rule.window_seconds)).2
      u (now - rule.window_seconds)).1

/-- The state after the additional last-minute cleaning passes of the burst
branch. -/
def rl_recent_cleaned (s : RLState) (rule : RateLimitRule) (ip : String)
    (u : Option String) (now : Nat) : RLState :=
  (clean_user (clean_ip (rl_cleaned s rule ip u now) ip (now - 60)).2 u (now - 60)).2

/-- max of the counts over the last minute. -/
def rl_recent_count (s : RLState) (rule : RateLimitRule) (ip : String)
    (u : Option String) (now : Nat) : Nat :=
  max (clean_ip (rl_cleaned s rule ip u now) ip (now - 60)).1
    (clean_user (clean_ip (rl_cleaned s rule ip u now) ip (now - 60)).2 u (now - 60)).1

/-- The body of RateLimiter.check_rate_limit once the rule is found: a live
block answers BLOCK_TEMPORARY; then the windows are cleaned and counted, a
truthy burst_limit reached within the last minute blocks temporarily, a
full main window rate-limits, and otherwise the request is allowed and
recorded.  The Python code computes each count once; the embedding names
the same pure computations through rl_cleaned / rl_max_count /
rl_recent_cleaned / rl_recent_count. -/
def check_rate_limit_rule (s : RLState) (rule : RateLimitRule) (ip : String)
    (u : Option String) (now : Nat) : SecurityAction × RLState :=
  if (is_blocked s ip u now).1 then
    (.block_temporary, (is_blocked s ip u now).2)
  else if rule.burst_limit.getD 0 ≠ 0 ∧
      rl_max_count s rule ip u now ≥ rule.burst_limit.getD 0 then
    if rl_recent_count s rule ip u now ≥ rule.burst_limit.getD 0 then
      (.block_temporary,
        block_temporarily (rl_recent_cleaned s rule ip u now) ip u
          rule.block_duration_seconds now)
    else if rl_max_count s rule ip u now ≥ rule.requests_per_window then
      (.rate_limit, rl_recent_cleaned s rule ip u now)
    else (.allow, append_now (rl_recent_cleaned s rule ip u now) ip u now)
  else if rl_max_count s rule ip u now ≥ rule.requests_per_window then
    (.rate_limit, rl_cleaned s rule ip u now)
  else (.allow, append_now (rl_cleaned s rule ip u now) ip u now)

/-- RateLimiter.check_rate_limit: an unknown rule name allows outright
(without recording anything); otherwise the rule body runs. -/
def check_rate_limit (s : RLState) (rule_name ip : String)
    (user_id : Option String) (now : Nat) : SecurityAction × RLState :=
  match dfind s.rules rule_name with
  | none => (.allow, s)
  | some rule => check_rate_limit_rule s rule ip user_id now

/-- The default rules of RateLimiter.__init__. -/
def mkRule (n : String) (r w : Nat) (b : Option Nat) (d : Nat) : RateLimitRule :=
  { name := n, requests_per_window := r, window_seconds := w,
    burst_limit := b, block_duration_seconds := d }

def initRules : List (String × RateLimitRule) :=
  [("api_general", mkRule "api_general" 100 3600 (some 10) 300),
   ("auth", mkRule "auth" 5 300 (some 2) 900),
   ("generation", mkRule "generation" 10 60 (some 3) 120),
   ("upload", mkRule "upload" 20 3600 (some 5) 600)]

/-- A RateLimiter with empty tracking state and the given rules. -/
def emptyRL (rules : List (String × RateLimitRule)) : RLState :=
  { ip_requests := [], user_requests := [], blocked_ips := [],
    blocked_users := [], rules := rules }

/-- Run a sequence of checks for one rule, ip and user at the given
times, keeping only the final state. -/
def run_checks (rule_name ip : String) (user_id : Option String)
    (times : List Nat) (s : RLState) : RLState :=
  times.foldl (fun s t => (check_rate_limit s rule_name ip user_id t).2) s

/-- Queues only lose entries from the front: every per-key request deque of
the second state is a sublist of the first state's. -/
def queuesSub (s' s : RLState) : Prop :=
  (∀ k, List.Sublist (dget s'.ip_requests k []) (dget s.ip_requests k [])) ∧
  (∀ k, List.Sublist (dget s'.user_requests k []) (dget s.user_requests k []))

theorem queuesSub_refl (s : RLState) : queuesSub s s :=
  ⟨fun _ => List.Sublist.refl _, fun _ => List.Sublist.refl _⟩

theorem queuesSub_trans {s1 s2 s3 : RLState}
    (h1 : queuesSub s1 s2) (h2 : queuesSub s2 s3) : queuesSub s1 s3 :=
  ⟨fun k => (h1.1 k).trans (h2.1 k), fun k => (h1.2 k).trans (h2.2 k)⟩

theorem dget_dset_sub {α : Type} (d : List (String × List α)) (k k' : String)
    (v : List α) (h : List.Sublist v (dget d k [])) :
    List.Sublist (dget (dset d k v) k' []) (dget d k' []) := by
  by_cases hk : k' = k
  · subst hk
    rw [dget_dset_self]
    exact h
  · rw [dget_dset_ne _ _ _ _ _ hk]

theorem queuesSub_clean_ip (s : RLState) (ip : String) (ws : Nat) :
    queuesSub (clean_ip s ip ws).2 s := by
  unfold clean_ip count_requests
  refine ⟨?_, fun k => List.Sublist.refl _⟩
  intro k
  exact dget_dset_sub _ _ _ _ ((List.dropWhile_suffix _).sublist)

theorem queuesSub_clean_user (s : RLState) (u : Option String) (ws : Nat) :
    queuesSub (clean_user s u ws).2 s := by
  unfold clean_user count_requests
  cases u with
  | none => exact queuesSub_refl s
  | some u' =>
    refine ⟨fun k => List.Sublist.refl _, ?_⟩
    intro k
    exact dget_dset_sub _ _ _ _ ((List.dropWhile_suffix _).sublist)

theorem queuesSub_block_temporarily (s : RLState) (ip : String)
    (u : Option String) (d now : Nat) :
    queuesSub (block_temporarily s ip u d now) s := by
  unfold block_temporarily
  cases u with
  | none => exact queuesSub_refl s
  | some u' => exact ⟨fun _ => List.Sublist.refl _, fun _ => List.Sublist.refl _⟩

theorem is_blocked_user_queues (s : RLState) (u : Option String) (now : Nat) :
    (is_blocked_user s u now).2.ip_requests = s.ip_requests ∧
    (is_blocked_user s u now).2.user_requests = s.user_requests := by
  unfold is_blocked_user
  refine ⟨?_, ?_⟩ <;> (repeat' split) <;> rfl

theorem is_blocked_queues (s : RLState) (ip : String) (u : Option String)
    (now : Nat) :
    (is_blocked s ip u now).2.ip_requests = s.ip_requests ∧
    (is_blocked s ip u now).2.user_requests = s.user_requests := by
  unfold is_blocked
  split
  · exact is_blocked_user_queues s u now
  · split
    · exact ⟨rfl, rfl⟩
    · exact is_blocked_user_queues _ u now

theorem queuesSub_of_eq {s' s : RLState}
    (h1 : s'.ip_requests = s.ip_requests) (h2 : s'.user_requests = s.user_requests) :
    queuesSub s' s := by
  constructor
  · intro k; rw [h1]
  · intro k; rw [h2]

theorem queuesSub_rl_cleaned (s : RLState) (rule : RateLimitRule) (ip : String)
    (u : Option String) (now : Nat) : queuesSub (rl_cleaned s rule ip u now) s := by
  unfold rl_cleaned
  exact queuesSub_trans
    (queuesSub_clean_user
      (clean_ip (is_blocked s ip u now).2 ip (now - rule.window_seconds)).2 u
      (now - rule.window_seconds))
    (queuesSub_trans
      (queuesSub_clean_ip (is_blocked s ip u now).2 ip (now - rule.window_seconds))
      (queuesSub_of_eq (is_blocked_queues s ip u now).1
        (is_blocked_queues s ip u now).2))

theorem queuesSub_rl_recent_cleaned (s : RLState) (rule : RateLimitRule)
    (ip : String) (u : Option String) (now : Nat) :
    queuesSub (rl_recent_cleaned s rule ip u now) s := by
  unfold rl_recent_cleaned
  exact queuesSub_trans
    (queuesSub_clean_user (clean_ip (rl_cleaned s rule ip u now) ip (now - 60)).2 u
      (now - 60))
    (queuesSub_trans
      (queuesSub_clean_ip (rl_cleaned s rule ip u now) ip (now - 60))
      (queuesSub_rl_cleaned s rule ip u now))

/-- Any non-ALLOW result of check_rate_limit appends nothing: every request
deque of the resulting state is a sublist of what it was. -/
theorem no_append_unless_allow (s : RLState) (rule_name ip : String)
    (u : Option String) (now : Nat)
    (h : (check_rate_limit s rule_name ip u now).1 ≠ SecurityAction.allow) :
    queuesSub (check_rate_limit s rule_name ip u now).2 s := by
  cases hr : dfind s.rules rule_name with
  | none =>
    have heq : check_rate_limit s rule_name ip u now = (SecurityAction.allow, s) := by
      unfold check_rate_limit
      rw [hr]
    rw [heq] at h
    exact absurd rfl h
  | some rule =>
    have heq : check_rate_limit s rule_name ip u now =
        check_rate_limit_rule s rule ip u now := by
      unfold check_rate_limit
      rw [hr]
    rw [heq] at h ⊢
    unfold check_rate_limit_rule at h ⊢
    by_cases hb : (is_blocked s ip u now).1 = true
    · rw [if_pos hb] at h ⊢
      exact queuesSub_of_eq (is_blocked_queues s ip u now).1
        (is_blocked_queues s ip u now).2
    · rw [if_neg hb] at h ⊢
      by_cases hbst : rule.burst_limit.getD 0 ≠ 0 ∧
          rl_max_count s rule ip u now ≥ rule.burst_limit.getD 0
      · rw [if_pos hbst] at h ⊢
        by_cases hrb : rl_recent_count s rule ip u now ≥ rule.burst_limit.getD 0
        · rw [if_pos hrb] at h ⊢
          exact queuesSub_trans
            (queuesSub_block_temporarily _ ip u rule.block_duration_seconds now)
            (queuesSub_rl_recent_cleaned s rule ip u now)
        · rw [if_neg hrb] at h ⊢
          by_cases hm : rl_max_count s rule ip u now ≥ rule.requests_per_window
          · rw [if_pos hm] at h ⊢
            exact queuesSub_rl_recent_cleaned s rule ip u now
          · rw [if_neg hm] at h
            exact absurd rfl h
      · rw [if_neg hbst] at h ⊢
        by_cases hm : rl_max_count s rule ip u now ≥ rule.requests_per_window
        · rw [if_pos hm] at h ⊢
          exact queuesSub_rl_cleaned s rule ip u now
        · rw [if_neg hm] at h
          exact absurd rfl h

/-- The limiter of C6: a rule allowing 5 requests per 60-second window and
no burst limit, with empty tracking state. -/
def rl6 : RLState := emptyRL [("r", mkRule "r" 5 60 none 300)]

def rl6_s (ts : List Nat) : RLState := run_checks "r" "203.0.113.9" (some "alice") ts rl6

/-- C6, claim statement: from empty counters, five consecutive checks for
one IP within the 60-second window all ALLOW (recording their timestamps in
both the IP and user sequences), the sixth returns RATE_LIMIT leaving the
state untouched, a check after the window has passed returns ALLOW again,
and in general any check that does not return ALLOW appends no timestamp to
any request sequence. -/
theorem rate_limiter_sliding_window :
    ((check_rate_limit (rl6_s []) "r" "203.0.113.9" (some "alice") 1000).1 =
        SecurityAction.allow ∧
      (check_rate_limit (rl6_s [1000]) "r" "203.0.113.9" (some "alice") 1001).1 =
        SecurityAction.allow ∧
      (check_rate_limit (rl6_s [1000, 1001]) "r" "203.0.113.9" (some "alice") 1002).1 =
        SecurityAction.allow ∧
      (check_rate_limit (rl6_s [1000, 1001, 1002]) "r" "203.0.113.9"
        (some "alice") 1003).1 = SecurityAction.allow ∧
      (check_rate_limit (rl6_s [1000, 1001, 1002, 1003]) "r" "203.0.113.9"
        (some "alice") 1004).1 = SecurityAction.allow) ∧
    (check_rate_limit (rl6_s [1000, 1001, 1002, 1003, 1004]) "r" "203.0.113.9"
      (some "alice") 1005).1 = SecurityAction.rate_limit ∧
    (check_rate_limit (rl6_s [1000, 1001, 1002, 1003, 1004]) "r" "203.0.113.9"
      (some "alice") 1005).2 = rl6_s [1000, 1001, 1002, 1003, 1004] ∧
    dget (rl6_s [1000, 1001, 1002, 1003, 1004]).ip_requests "203.0.113.9" [] =
      [1000, 1001, 1002, 1003, 1004] ∧
    dget (rl6_s [1000, 1001, 1002, 1003, 1004]).user_requests "alice" [] =
      [1000, 1001, 1002, 1003, 1004] ∧
    (check_rate_limit (rl6_s [1000, 1001, 1002, 1003, 1004]) "r" "203.0.113.9"
      (some "alice") 1100).1 = SecurityAction.allow ∧
    (∀ (s : RLState) (rule_name ip : String) (u : Option String) (now : Nat),
      (check_rate_limit s rule_name ip u now).1 ≠ SecurityAction.allow →
      queuesSub (check_rate_limit s rule_name ip u now).2 s) := by
  refine ⟨⟨?_, ?_, ?_, ?_, ?_⟩, ?_, ?_, ?_, ?_, ?_, no_append_unless_allow⟩ <;> decide

/-- C6 witness: the rejected sixth request appends nothing, obtained from
the general clause of the theorem at the concrete rejected check. -/
theorem rate_limiter_sliding_window_witness :
    queuesSub (check_rate_limit (rl6_s [1000, 1001, 1002, 1003, 1004]) "r"
      "203.0.113.9" (some "alice") 1005).2 (rl6_s [1000, 1001, 1002, 1003, 1004]) :=
  rate_limiter_sliding_window.2.2.2.2.2.2 (rl6_s [1000, 1001, 1002, 1003, 1004])
    "r" "203.0.113.9" (some "alice") 1005 (by decide)

/-- The limiter of C7: 100 requests per hour but burst_limit 2, with empty
tracking state. -/
def rl7 : RLState := emptyRL [("b", mkRule "b" 100 3600 (some 2) 300)]

def rl7_s (ts : List Nat) : RLState := run_checks "b" "198.51.100.7" none ts rl7

/-- C7, claim statement: with burst_limit 2 on an otherwise unexhausted
100-per-hour rule, the third request within 10 seconds returns
BLOCK_TEMPORARY and records a block until now + block_duration; while the
block is live every check for that IP returns BLOCK_TEMPORARY with the
state untouched (general clause); once the expiry time is reached the next
check removes the block record and is ALLOWed again. -/
theorem rate_limiter_burst_block :
    (check_rate_limit (rl7_s []) "b" "198.51.100.7" none 1000).1 =
      SecurityAction.allow ∧
    (check_rate_limit (rl7_s [1000]) "b" "198.51.100.7" none 1003).1 =
      SecurityAction.allow ∧
    (check_rate_limit (rl7_s [1000, 1003]) "b" "198.51.100.7" none 1006).1 =
      SecurityAction.block_temporary ∧
    dfind (rl7_s [1000, 1003, 1006]).blocked_ips "198.51.100.7" = some 1306 ∧
    (check_rate_limit (rl7_s [1000, 1003, 1006]) "b" "198.51.100.7" none 1100).1 =
      SecurityAction.block_temporary ∧
    (check_rate_limit (rl7_s [1000, 1003, 1006]) "b" "198.51.100.7" none 1100).2 =
      rl7_s [1000, 1003, 1006] ∧
    (check_rate_limit (rl7_s [1000, 1003, 1006]) "b" "198.51.100.7" none 1306).1 =
      SecurityAction.allow ∧
    (check_rate_limit (rl7_s [1000, 1003, 1006]) "b" "198.51.100.7"
      none 1306).2.blocked_ips = [] ∧
    (∀ (s : RLState) (rule_name ip : String) (u : Option String) (now T : Nat)
      (rule : RateLimitRule),
      dfind s.rules rule_name = some rule →
      dfind s.blocked_ips ip = some T → now < T →
      check_rate_limit s rule_name ip u now = (SecurityAction.block_temporary, s)) := by
  refine ⟨?_, ?_, ?_, ?_, ?_, ?_, ?_, ?_, ?_⟩
  · decide
  · decide
  · decide
  · decide
  · decide
  · decide
  · decide
  · decide
  · intro s rule_name ip u now T rule hr hb hlt
    have heq : check_rate_limit s rule_name ip u now =
        check_rate_limit_rule s rule ip u now := by
      unfold check_rate_limit
      rw [hr]
    rw [heq]
    have hib : is_blocked s ip u now = (true, s) := by
      unfold is_blocked
      simp only [hb]
      rw [if_pos hlt]
    unfold check_rate_limit_rule
    rw [hib]
    rw [if_pos rfl]

/-- C7 witness: a still-blocked check at a fresh time, obtained through the
general clause of the theorem. -/
theorem rate_limiter_burst_block_witness :
    check_rate_limit (rl7_s [1000, 1003, 1006]) "b" "198.51.100.7" none 1200 =
      (SecurityAction.block_temporary, rl7_s [1000, 1003, 1006]) :=
  rate_limiter_burst_block.2.2.2.2.2.2.2.2 (rl7_s [1000, 1003, 1006]) "b"
    "198.51.100.7" none 1200 1306 (mkRule "b" 100 3600 (some 2) 300)
    (by decide) (by decide) (by decide)

/-! ## C3: the video-generation endpoint (main.py generate_video_cloud)

The endpoint validates the prompt, checks only the video_generation quota
(never daily_tasks), creates and enqueues the task, then consumes the
video_generation and daily_tasks quotas ignoring their results.  An
HTTPException raised inside the try block (400 invalid prompt, 429 quota)
is caught by the blanket `except Exception` handler and re-raised as a 500
whose detail wraps the original message; the embedding returns that wrapped
error directly.  Prompt validation by the security manager is abstracted to
the Boolean promptValid. -/

deriving instance DecidableEq for Except

def generate_video (promptValid : Bool) (user_id : String) (um : UMState)
    (tm : TMState) : Except (Nat × String) Nat × UMState × TMState :=
  if promptValid = false then
    (.error (500, "Generation failed: Invalid prompt"), um, tm)
  else if check_quota um user_id "video_generation" 1 = false then
    (.error (500, "Generation failed: Video generation quota exceeded"), um, tm)
  else
    let ct := create_task tm
    let um1 := (consume_quota um user_id "video_generation" 1).2
    let um2 := (consume_quota um1 user_id "daily_tasks" 1).2
    (.ok ct.1, um2, ct.2)

/-- A user whose daily_tasks quota is exhausted (used = limit = 10) while
video_generation quota remains. -/
def umDaily : UMState :=
  [("u", { quota_limits := [("daily_tasks", 10), ("video_generation", 2)],
           quota_used := [("daily_tasks", 10), ("video_generation", 0)] })]

/-- A user whose video_generation quota is exhausted. -/
def umVideoFull : UMState :=
  [("u", { quota_limits := [("daily_tasks", 10), ("video_generation", 2)],
           quota_used := [("daily_tasks", 0), ("video_generation", 2)] })]

/-- C3 counterexample: for a user with daily_tasks used = limit = 10 (and
limit not -1) the video endpoint is not rejected: it answers ok, creates
the task and enqueues it, because the endpoint never checks daily_tasks. -/
theorem daily_quota_admission_cex :
    usedOf umDaily "u" "daily_tasks" = limitOf umDaily "u" "daily_tasks" ∧
    limitOf umDaily "u" "daily_tasks" ≠ -1 ∧
    (generate_video true "u" umDaily initTM).1 = Except.ok 0 ∧
    (generate_video true "u" umDaily initTM).2.2.task_queue = [0] ∧
    dfind (generate_video true "u" umDaily initTM).2.2.tasks 0 =
      some { status := TaskStatus.pending, progress := 0,
             result := none, error := none } := by
  decide

theorem consume_usedOf_other (s : UMState) (uid qt q : String) (amt : Int)
    (hq : q ≠ qt) :
    usedOf (consume_quota s uid qt amt).2 uid q = usedOf s uid q := by
  by_cases hc : check_quota s uid qt amt = false
  · rw [consume_state_of_check_false _ _ _ _ hc]
  · cases hf : dfind s uid with
    | none =>
      unfold consume_quota
      rw [if_neg hc, hf]
    | some user =>
      rw [consume_state_of_found s uid qt amt user hc hf]
      unfold usedOf
      rw [dfind_dset_self, hf]
      simp only
      rw [dget_dset_ne _ _ _ _ _ hq]

/-- C3 amended: the endpoint rejects exactly when its own video_generation
quota check fails (returning the 429 wrapped as 500 by the blanket handler,
with the quota state and the task manager untouched); exhaustion of
daily_tasks alone does not reject: the task is still created and enqueued,
and the failing daily_tasks consume leaves the daily counter unchanged. -/
theorem video_endpoint_admission (um : UMState) (tm : TMState) (uid : String) :
    (check_quota um uid "video_generation" 1 = false →
      generate_video true uid um tm =
        (Except.error (500, "Generation failed: Video generation quota exceeded"),
          um, tm)) ∧
    (check_quota um uid "video_generation" 1 = true →
      (generate_video true uid um tm).1 = Except.ok tm.next_id ∧
      (generate_video true uid um tm).2.2.task_queue =
        tm.task_queue ++ [tm.next_id] ∧
      dfind (generate_video true uid um tm).2.2.tasks tm.next_id =
        some { status := TaskStatus.pending } ∧
      (check_quota (consume_quota um uid "video_generation" 1).2 uid
          "daily_tasks" 1 = false →
        usedOf (generate_video true uid um tm).2.1 uid "daily_tasks" =
          usedOf um uid "daily_tasks")) := by
  constructor
  · intro hq
    unfold generate_video
    rw [if_neg (by decide : ¬ (true = false)), if_pos hq]
  · intro hq
    have hq' : ¬ check_quota um uid "video_generation" 1 = false := by
      rw [hq]
      simp
    unfold generate_video
    rw [if_neg (by decide : ¬ (true = false)), if_neg hq']
    refine ⟨rfl, ?_, ?_, ?_⟩
    · rfl
    · unfold create_task
      simp only
      rw [dfind_dset_self]
    · intro hd
      simp only
      rw [consume_state_of_check_false _ _ _ _ hd]
      exact consume_usedOf_other um uid "video_generation" "daily_tasks" 1 (by decide)

/-- C3 witness: the amended theorem applied to the exhausted-video user
(rejected, state untouched) and to the exhausted-daily user (admitted). -/
theorem video_endpoint_admission_witness :
    generate_video true "u" umVideoFull initTM =
      (Except.error (500, "Generation failed: Video generation quota exceeded"),
        umVideoFull, initTM) ∧
    (generate_video true "u" umDaily initTM).1 = Except.ok 0 := by
  constructor
  · exact (video_endpoint_admission umVideoFull initTM "u").1 (by decide)
  · exact ((video_endpoint_admission umDaily initTM "u").2 (by decide)).1

/-! ## C9: progress monotonicity of the video worker

ai_processor._process_video_generation writes progress 10 and 30, lets the
connector's progress callback write 30 + int(p * 0.6) for each reported
percentage p, and finishes with 95.  int(p * 0.6) is floor(6p/10) for the
percentages 0..100 (Python's float rounding can shift an exact multiple by
one but cannot break order or bounds, which is all the claim asserts); the
callbacks for one task arrive in the order the connector reports them. -/

def videoCb (p : Nat) : Int := ((30 + 6 * p / 10 : Nat) : Int)

/-- The ordered list of progress arguments the video worker's updates pass
for callback percentages ps. -/
def video_progress_updates (ps : List Nat) : List Int :=
  [10, 30] ++ ps.map videoCb ++ [95]

/-- The stored progress of a task, 0 when absent. -/
def progressValOf (s : TMState) (task_id : Nat) : Int :=
  (progressOfTask s task_id).getD 0

/-- Apply a list of pure progress updates (status argument None). -/
def applyProgressUpdates (s : TMState) (task_id : Nat) (qs : List Int) : TMState :=
  qs.foldl (fun s q => update_task_progress s task_id q none) s

/-- The successive stored progress values along a list of pure progress
updates, starting with the current one. -/
def progressTrace (s : TMState) (task_id : Nat) (qs : List Int) : List Int :=
  match qs with
  | [] => [progressValOf s task_id]
  | q :: rest =>
    progressValOf s task_id ::
      progressTrace (update_task_progress s task_id q none) task_id rest

theorem dfind_update_none (s : TMState) (task_id : Nat) (q : Int) (t : Task)
    (hf : dfind s.tasks task_id = some t) :
    dfind (update_task_progress s task_id q none).tasks task_id =
      some { t with progress := max 0 (min 100 q) } := by
  unfold update_task_progress
  rw [hf]
  exact dfind_dset_self s.tasks task_id _

theorem progressTrace_eq (task_id : Nat) :
    ∀ (qs : List Int) (s : TMState) (t : Task),
      dfind s.tasks task_id = some t → (∀ q ∈ qs, 0 ≤ q ∧ q ≤ 100) →
      progressTrace s task_id qs = t.progress :: qs := by
  intro qs
  induction qs with
  | nil =>
    intro s t hf _
    unfold progressTrace progressValOf progressOfTask
    rw [hf]
    rfl
  | cons q rest ih =>
    intro s t hf hqs
    have hq := hqs q (List.mem_cons_self q rest)
    have hclamp : max 0 (min 100 q) = q := by
      rw [min_eq_right hq.2, max_eq_right hq.1]
    have hf' := dfind_update_none s task_id q t hf
    rw [hclamp] at hf'
    unfold progressTrace
    rw [ih _ _ hf' (fun q' hq' => hqs q' (List.mem_cons_of_mem q hq'))]
    unfold progressValOf progressOfTask
    rw [hf]
    rfl

theorem applyProgress_keeps_status (task_id : Nat) :
    ∀ (qs : List Int) (s : TMState) (t : Task),
      dfind s.tasks task_id = some t →
      ∃ t', dfind (applyProgressUpdates s task_id qs).tasks task_id = some t' ∧
        t'.status = t.status := by
  intro qs
  induction qs with
  | nil =>
    intro s t hf
    exact ⟨t, hf, rfl⟩
  | cons q rest ih =>
    intro s t hf
    have hf' := dfind_update_none s task_id q t hf
    obtain ⟨t', hft', hst'⟩ := ih (update_task_progress s task_id q none) _ hf'
    exact ⟨t', hft', hst'⟩

theorem chain'_le_head_map (f : Nat → Int)
    (hmono : ∀ a b : Nat, a ≤ b → f a ≤ f b) :
    ∀ (ps : List Nat) (a : Int), (∀ q, ps.head? = some q → a ≤ f q) →
      a ≤ 95 → (∀ q ∈ ps, f q ≤ 95) → List.Chain' (· ≤ ·) ps →
      List.Chain' (· ≤ ·) (a :: (ps.map f ++ [95])) := by
  intro ps
  induction ps with
  | nil =>
    intro a _ ha _ _
    simp only [List.map_nil, List.nil_append]
    exact List.chain'_cons.2 ⟨ha, List.chain'_singleton 95⟩
  | cons p rest ih =>
    intro a hhead ha hbound hch
    simp only [List.map_cons, List.cons_append]
    refine List.chain'_cons.2 ⟨hhead p rfl, ?_⟩
    refine ih (f p) ?_ (hbound p (List.mem_cons_self p rest)) ?_ ?_
    · intro q hq
      cases rest with
      | nil => simp at hq
      | cons r rest' =>
        simp only [List.head?_cons] at hq
        injection hq with hq
        subst hq
        exact hmono p _ (List.chain'_cons.1 hch).1
    · intro q hq
      exact hbound q (List.mem_cons_of_mem p hq)
    · exact hch.tail

theorem videoCb_mono (a b : Nat) (h : a ≤ b) : videoCb a ≤ videoCb b := by
  unfold videoCb
  have : 30 + 6 * a / 10 ≤ 30 + 6 * b / 10 :=
    Nat.add_le_add_left (Nat.div_le_div_right (Nat.mul_le_mul_left 6 h)) 30
  exact_mod_cast this

theorem videoCb_lo (p : Nat) : (30 : Int) ≤ videoCb p := by
  unfold videoCb
  exact_mod_cast Nat.le_add_right 30 (6 * p / 10)

theorem videoCb_hi (p : Nat) (h : p ≤ 100) : videoCb p ≤ 95 := by
  unfold videoCb
  have : 30 + 6 * p / 10 ≤ 95 := by omega
  exact_mod_cast this

/-- C9, claim statement: starting from the PROCESSING transition (progress
0), the video worker's stored progress is monotonically non-decreasing
across its whole update sequence, the checkpoints 10, 30, 95 with the
scheduled callback updates interleaved between 30 and 95 (the callback
percentages arrive in order and within 0..100); the status stays PROCESSING
throughout the pure progress updates; every value the trace stores lies in
[0, 100]; and in general update_task_progress clamps whatever it stores
into [0, 100]. -/
theorem video_progress_monotone (s : TMState) (task_id : Nat) (t : Task)
    (ps : List Nat)
    (hf : dfind s.tasks task_id = some t) (hst : t.status = TaskStatus.processing)
    (hp0 : t.progress = 0)
    (hchain : List.Chain' (· ≤ ·) ps) (hbound : ∀ p ∈ ps, p ≤ 100) :
    List.Chain' (· ≤ ·) (progressTrace s task_id (video_progress_updates ps)) ∧
    (∀ v ∈ progressTrace s task_id (video_progress_updates ps),
      0 ≤ v ∧ v ≤ 100) ∧
    statusOfTask (applyProgressUpdates s task_id (video_progress_updates ps))
      task_id = some TaskStatus.processing ∧
    (∀ (s' : TMState) (id' : Nat) (q : Int) (st : Option TaskStatus) (t0 : Task),
      dfind s'.tasks id' = some t0 →
      ∃ t1, dfind (update_task_progress s' id' q st).tasks id' = some t1 ∧
        0 ≤ t1.progress ∧ t1.progress ≤ 100) := by
  have hqs : ∀ q ∈ video_progress_updates ps, 0 ≤ q ∧ q ≤ 100 := by
    intro q hq
    unfold video_progress_updates at hq
    rcases List.mem_append.1 hq with hq | hq
    · rcases List.mem_append.1 hq with hq | hq
      · simp only [List.mem_cons, List.mem_singleton] at hq
        rcases hq with rfl | rfl | hq
        · exact ⟨by decide, by decide⟩
        · exact ⟨by decide, by decide⟩
        · simp at hq
      · obtain ⟨p, hp, rfl⟩ := List.mem_map.1 hq
        refine ⟨le_trans (by decide) (videoCb_lo p), ?_⟩
        exact le_trans (videoCb_hi p (hbound p hp)) (by decide)
    · simp only [List.mem_singleton] at hq
      subst hq
      exact ⟨by decide, by decide⟩
  have htr := progressTrace_eq task_id (video_progress_updates ps) s t hf hqs
  refine ⟨?_, ?_, ?_, ?_⟩
  · rw [htr, hp0]
    show List.Chain' (· ≤ ·)
      ((0 : Int) :: 10 :: 30 :: (ps.map videoCb ++ [95]))
    refine List.chain'_cons.2 ⟨by decide, ?_⟩
    refine List.chain'_cons.2 ⟨by decide, ?_⟩
    refine chain'_le_head_map videoCb videoCb_mono ps 30 ?_ (by decide) ?_ hchain
    · intro q _
      exact videoCb_lo q
    · intro q hq
      exact videoCb_hi q (hbound q hq)
  · rw [htr, hp0]
    intro v hv
    rcases List.mem_cons.1 hv with rfl | hv
    · exact ⟨le_refl 0, by decide⟩
    · exact hqs v hv
  · obtain ⟨t', hft', hst'⟩ :=
      applyProgress_keeps_status task_id (video_progress_updates ps) s t hf
    unfold statusOfTask
    rw [hft']
    show some t'.status = some TaskStatus.processing
    rw [hst', hst]
  · intro s' id' q st t0 hf0
    refine ⟨?_, ?_, ?_, ?_⟩
    · exact { t0 with progress := max 0 (min 100 q), status := st.getD t0.status }
    · unfold update_task_progress
      rw [hf0]
      exact dfind_dset_self s'.tasks id' _
    · exact le_max_left 0 (min 100 q)
    · exact max_le (by decide) (min_le_left 100 q)

/-- C9 witness: a PROCESSING task at progress 0 with callback percentages
0, 50, 100, evaluated through the theorem. -/
theorem video_progress_monotone_witness :
    List.Chain' (· ≤ ·)
      (progressTrace { initTM with tasks := [(0, { status := TaskStatus.processing })] }
        0 (video_progress_updates [0, 50, 100])) ∧
    statusOfTask (applyProgressUpdates
      { initTM with tasks := [(0, { status := TaskStatus.processing })] }
      0 (video_progress_updates [0, 50, 100])) 0 = some TaskStatus.processing := by
  have h := video_progress_monotone
    { initTM with tasks := [(0, { status := TaskStatus.processing })] } 0
    { status := TaskStatus.processing } [0, 50, 100] rfl rfl rfl
    (List.chain'_cons.2 ⟨by decide,
      List.chain'_cons.2 ⟨by decide, List.chain'_singleton 100⟩⟩)
    (by decide)
  exact ⟨h.1, h.2.2.1⟩

end AgentStudio
